import Mathlib

/-!
# Availability monitoring and trip procedures

A shallow embedding of `sample_monitoring.go` (package `availability`, function `Changes`)
and `sample_api.go` (package `trip`, function `addTripProcedures`), followed by theorems
about the two functions.

Conventions of the embedding:

* a Go `map[string]V` is a list of key/value pairs; the order of the list is the order in
  which a `range` statement visits the entries, so a statement that holds for every list
  holds for every enumeration order; a map that the code builds is visited in the order
  in which its keys were added. Go picks the order of every `range` anew, so two runs of
  the code on one input are two inputs of the embedding whose lists enumerate the same
  maps in different orders;
* the external collaborators (Cloud Storage, the HTTP fetch, the JSON codec, the record
  store) are parameters of the embedded functions;
* an early `return`, `continue` or `break` of the Go code ends the corresponding recursion.
-/

set_option autoImplicit false

namespace GoMap

variable {V : Type}

/-- Comma-ok lookup `v, present := m[k]`: `none` when the key is not present. -/
def get? : List (String × V) → String → Option V
  | [], _ => none
  | (k', v) :: rest, k => if k' = k then some v else get? rest k

/-- Assignment `m[k] = v`: replaces the value of an existing key, adds the key otherwise. -/
def set : List (String × V) → String → V → List (String × V)
  | [], k, v => [(k, v)]
  | (k', v') :: rest, k, v => if k' = k then (k, v) :: rest else (k', v') :: set rest k v

/-- The keys of a map, in enumeration order. -/
def keys (m : List (String × V)) : List String := m.map Prod.fst

end GoMap

namespace Availability

/-- Unit map of one date: `map[string]bool`, campsite id to availability flag. -/
abbrev Units := List (String × Bool)

/-- Availability snapshot `map[string]map[string]bool`: date to unit map. -/
abbrev Snapshot := List (String × Units)

/-- The map returned by `Changes`: request id to date to unit map. -/
abbrev ChangeSet := List (String × Snapshot)

instance instDecidableEqUnits : DecidableEq Units := inferInstance

instance instDecidableEqSnapshot : DecidableEq Snapshot := inferInstance

instance instDecidableEqChangeSet : DecidableEq ChangeSet := inferInstance

/-- Go struct `CampsiteMetadata`. -/
structure CampsiteMetadata where
  Availabilities : List (String × String)
  CampsiteId : String
deriving DecidableEq, Repr

/-- Go struct `RespCampsiteData`. -/
structure RespCampsiteData where
  Campsites : List (String × CampsiteMetadata)
deriving DecidableEq, Repr

/-- Go struct `ActiveRequests`. -/
structure ActiveRequests where
  ReqId : String
  CampgroundId : String
  Url : String
  Update : Bool
  ActiveDays : List (String × Bool)
deriving DecidableEq, Repr

/-- Package variable `WEBSITE`. -/
def WEBSITE : String := "https://www.recreation.gov/camping/campgrounds/"

/-- Content of the Cloud Storage bucket: file name to stored text, `none` for a file that
does not exist. -/
abbrev Files := String → Option String

/-- The collaborators of `Changes` that are not part of the package: the failures of
Cloud Storage, the JSON codec and the HTTP fetch `makeRequest` (whose body is network
I/O). -/
structure World where
  /-- whether `downloadFileIntoMemory` fails for this file name -/
  downloadFails : String → Bool
  /-- result of `json.Unmarshal` into `oldAvlbty`; `none` is a decoding error -/
  unmarshal : String → Option Snapshot
  /-- result of `makeRequest reqURL refURL`; `none` is an error -/
  makeRequest : String → String → Option String
  /-- result of `json.NewDecoder(resp_body).Decode(&req_resp)`; `none` is a decoding error -/
  decode : String → Option RespCampsiteData
  /-- the JSON text that `uploadFileFromMemory` stores for a snapshot -/
  marshal : Snapshot → String
  /-- whether `uploadFileFromMemory` fails for this file name -/
  uploadFails : String → Bool

/-- Modelled from the spec: `downloadFileIntoMemory` is not in the source file. It is the
`SnapshotStore.Get` of the spec: it returns the stored bytes, empty bytes for a file that
does not exist (comment at line 114), or an error. -/
def downloadFileIntoMemory (w : World) (files : Files) (file : String) : Option String :=
  if w.downloadFails file then none else some ((files file).getD "")

/-- Modelled from the spec: `uploadFileFromMemory` is not in the source file. It is the
`SnapshotStore.Put` of the spec: it stores the snapshot under the given name, or fails
and stores nothing. -/
def uploadFileFromMemory (w : World) (files : Files) (file : String) (data : Snapshot) :
    Option Files :=
  if w.uploadFails file then none
  else some (fun f => if f = file then some (w.marshal data) else files f)

/-- Name of the baseline file of a request (line 105). -/
def baselineFile (reqId : String) : String := reqId ++ "_availability.json"

/-- Name of the temporary file of a request (line 125). -/
def tempFile (reqId : String) : String := "temp_" ++ reqId ++ "_availability.json"

/-- Expression `strings.Split(date, "T")[0]`: the text before the first `T`, the whole text when
there is none. -/
def campDate (date : String) : String := String.mk (date.toList.takeWhile (fun c => c ≠ 'T'))

/-- Lookup `m[date][campsite]` with the comma-ok form; a missing date gives a nil unit map, in
which no campsite is present. -/
def unit? (m : Snapshot) (date campsite : String) : Option Bool :=
  GoMap.get? ((GoMap.get? m date).getD []) campsite

/-- Lines 172-178: one availability entry of the payload is entered into `newAvlbty`. -/
def addAvailability (newAvlbty : Snapshot) (campsite date status : String) : Snapshot :=
  let campDate := campDate date
  let newAvlbty :=
    if (GoMap.get? newAvlbty campDate).isSome then newAvlbty
    else GoMap.set newAvlbty campDate []
  let newAvlbty :=
    GoMap.set newAvlbty campDate
      (GoMap.set ((GoMap.get? newAvlbty campDate).getD []) campsite false)
  if status = "Available" then
    GoMap.set newAvlbty campDate
      (GoMap.set ((GoMap.get? newAvlbty campDate).getD []) campsite true)
  else newAvlbty

/-- Lines 170-179: the inner loop over the availabilities of one campsite. -/
def normaliseCampsite (campsite : String) : Snapshot → List (String × String) → Snapshot
  | newAvlbty, [] => newAvlbty
  | newAvlbty, (date, status) :: rest =>
      normaliseCampsite campsite (addAvailability newAvlbty campsite date status) rest

/-- Lines 169-180: the loop over the campsites of the decoded response. -/
def normalise : Snapshot → List (String × CampsiteMetadata) → Snapshot
  | newAvlbty, [] => newAvlbty
  | newAvlbty, (campsite, campInfo) :: rest =>
      normalise (normaliseCampsite campsite newAvlbty campInfo.Availabilities) rest

/-- The guarded write that lines 189-192, 202-205, 215-218 and 231-234 share: when
`changes` has no entry for the request, the entry is created and the date is stored in
it; when it has one, nothing is written. -/
def recordChange (changes : ChangeSet) (reqId date : String) (campsites : Units) : ChangeSet :=
  if (GoMap.get? changes reqId).isSome then changes
  else
    let changes := GoMap.set changes reqId []
    GoMap.set changes reqId (GoMap.set ((GoMap.get? changes reqId).getD []) date campsites)

/-- Lines 197-221: the loop over the units of a date of `newAvlbty` that is also in
`oldAvlbty`. A unit that is new or whose flag differs records the date and breaks. -/
def scanNewUnits (oldAvlbty : Snapshot) (reqId date : String) (campsites : Units)
    (changes : ChangeSet) : Units → ChangeSet
  | [] => changes
  | (campsite, available) :: rest =>
      match unit? oldAvlbty date campsite with
      | none => recordChange changes reqId date campsites
      | some was =>
          if available ≠ was then recordChange changes reqId date campsites
          else scanNewUnits oldAvlbty reqId date campsites changes rest

/-- Lines 183-222: the loop over the dates of `newAvlbty`. -/
def scanNew (oldAvlbty : Snapshot) (reqId : String) : ChangeSet → Snapshot → ChangeSet
  | changes, [] => changes
  | changes, (date, campsites) :: rest =>
      if (GoMap.get? oldAvlbty date).isNone then
        scanNew oldAvlbty reqId (recordChange changes reqId date campsites) rest
      else
        scanNew oldAvlbty reqId
          (scanNewUnits oldAvlbty reqId date campsites changes campsites) rest

/-- Lines 228-237: the loop over the units of a date of `oldAvlbty`. A unit that is
missing from `newAvlbty[date]` records the date with the old unit map and breaks. -/
def scanOldUnits (newAvlbty : Snapshot) (reqId date : String) (campsites : Units)
    (changes : ChangeSet) : Units → ChangeSet
  | [] => changes
  | (campsite, _) :: rest =>
      if (unit? newAvlbty date campsite).isNone then recordChange changes reqId date campsites
      else scanOldUnits newAvlbty reqId date campsites changes rest

/-- Lines 227-238: the loop over the dates of `oldAvlbty`. -/
def scanOld (newAvlbty : Snapshot) (reqId : String) : ChangeSet → Snapshot → ChangeSet
  | changes, [] => changes
  | changes, (date, campsites) :: rest =>
      scanOld newAvlbty reqId
        (scanOldUnits newAvlbty reqId date campsites changes campsites) rest

/-- Lines 183-238: the comparison of the old with the new availability. -/
def diff (changes : ChangeSet) (reqId : String) (oldAvlbty newAvlbty : Snapshot) : ChangeSet :=
  scanOld newAvlbty reqId (scanNew oldAvlbty reqId changes newAvlbty) oldAvlbty

/-- State at the end of one iteration of the loop of line 89. -/
structure Iteration where
  /-- the map `changes` -/
  changes : ChangeSet
  /-- the bucket -/
  files : Files
  /-- the loop variable `reqInfo`, the iteration's copy of the map value -/
  reqInfo : ActiveRequests

/-- Lines 90-247: the body of the loop over `reqData`, for one request. The range of line
183 visits `newAvlbty` in the order in which lines 169-180 added its keys, and the range
of line 227 visits `oldAvlbty` in the order of the list that `unmarshal` returns; a run
with other range orders is a world whose `decode` and `unmarshal` return the same maps
in another order. -/
def scanRequest (w : World) (changes : ChangeSet) (files : Files) (reqId : String)
    (reqInfo : ActiveRequests) : Iteration :=
  let file := baselineFile reqId
  match downloadFileIntoMemory w files file with
  | none => ⟨changes, files, { reqInfo with Update := false }⟩
  | some avlbtyByte =>
    match (if avlbtyByte.length > 0 then w.unmarshal avlbtyByte else some []) with
    | none => ⟨changes, files, { reqInfo with Update := false }⟩
    | some oldAvlbty =>
      let tempFile := tempFile reqId
      let refURL := WEBSITE ++ reqInfo.CampgroundId
      match w.makeRequest reqInfo.Url refURL with
      | none => ⟨changes, files, { reqInfo with Update := false }⟩
      | some resp_body =>
        match w.decode resp_body with
        | none => ⟨changes, files, { reqInfo with Update := false }⟩
        | some req_resp =>
          let newAvlbty := normalise [] req_resp.Campsites
          let changes := diff changes reqId oldAvlbty newAvlbty
          match uploadFileFromMemory w files tempFile newAvlbty with
          | none => ⟨changes, files, { reqInfo with Update := false }⟩
          | some files => ⟨changes, files, reqInfo⟩

/-- What a caller of `Changes` observes after the call. -/
structure Scan where
  /-- the returned map -/
  changes : ChangeSet
  /-- the bucket after the call -/
  files : Files
  /-- the map `reqData` that the caller passed, after the call -/
  reqData : List (String × ActiveRequests)

/-- Lines 89-248: the loop over `reqData`. The loop variable `reqInfo` is a copy of the
map value and ends with its iteration; no statement assigns to `reqData`. -/
def scanLoop (w : World) (reqData : List (String × ActiveRequests)) :
    ChangeSet → Files → List (String × ActiveRequests) → Scan
  | changes, files, [] => ⟨changes, files, reqData⟩
  | changes, files, (reqId, reqInfo) :: rest =>
      let it := scanRequest w changes files reqId reqInfo
      scanLoop w reqData it.changes it.files rest

/-- Function `Changes` (lines 68-251), run on a bucket with content `files`. -/
def Changes (w : World) (files : Files) (reqData : List (String × ActiveRequests)) : Scan :=
  scanLoop w reqData [] files reqData

end Availability

namespace Trip

/-- Go struct `DateInfo`. -/
structure DateInfo where
  Available : Bool
  AvailabilityId : String
  Campsites : List (String × String)
deriving DecidableEq, Repr

/-- Go struct `TripInfo`. -/
structure TripInfo where
  TripName : String
  TripId : String
  SubscriberId : String
  Location : String
  Active : Bool
  Notification : Bool
  Requests : List (String × String)
  Dates : List (String × DateInfo)
deriving DecidableEq, Repr

/-- Go `error` values of the record store. `ErrNoDoc` is the package's sentinel for a
document that does not exist; a nil error is `none : Option StoreError`. -/
inductive StoreError where
  | ErrNoDoc
  | failure (msg : String)
deriving DecidableEq, Repr

/-- The record-store functions that `addTripProcedures` calls; they are not part of the
source file. `σ` is the state of the store. A write returns its error and the next state.
`GetActiveReq` is a read: it reports its error for the state in which it is called and
leaves the state as it is (the record it returns is not used by `addTripProcedures`). -/
structure RecordStore (σ : Type) where
  AddTripMtd : TripInfo → σ → Option StoreError × σ
  AddTripSubscriberMtd : String → String → σ → Option StoreError × σ
  AddSubscriptionMtd : String → String → String → σ → Option StoreError × σ
  GetActiveReq : String → σ → Option StoreError
  AddActiveReq : String → List (String × DateInfo) → σ → Option StoreError × σ

/-- One call of a record-store function, with its arguments. -/
inductive Call where
  | AddTripMtd (trip : TripInfo)
  | AddTripSubscriberMtd (subscriberId tripId : String)
  | AddSubscriptionMtd (tripId date location : String)
  | GetActiveReq (reqId : String)
  | AddActiveReq (reqId : String) (dates : List (String × DateInfo))
deriving DecidableEq, Repr

/-- The local variables of `addTripProcedures` while its loop runs, with the state of the
store and the record-store calls made so far. -/
structure Progress (σ : Type) where
  proceduresCompleted : List String
  changedDates : List (String × DateInfo)
  changedReqs : List (String × String)
  store : σ
  calls : List Call

/-- The four return values of `addTripProcedures`, with the state of the store and the
record-store calls made, in order. -/
structure Outcome (σ : Type) where
  proceduresCompleted : List String
  changedDates : List (String × DateInfo)
  changedReqs : List (String × String)
  err : Option StoreError
  store : σ
  calls : List Call

/-- A statement `return proceduresCompleted, changedDates, changedReqs, err`. -/
def Progress.ret {σ : Type} (p : Progress σ) (err : Option StoreError) : Outcome σ :=
  ⟨p.proceduresCompleted, p.changedDates, p.changedReqs, err, p.store, p.calls⟩

/-- A record-store call is made: the store moves to `s` and the call is logged. -/
def Progress.called {σ : Type} (p : Progress σ) (c : Call) (s : σ) : Progress σ :=
  { p with store := s, calls := p.calls ++ [c] }

/-- Statement `proceduresCompleted = append(proceduresCompleted, name)`. -/
def Progress.completed {σ : Type} (p : Progress σ) (name : String) : Progress σ :=
  { p with proceduresCompleted := p.proceduresCompleted ++ [name] }

/-- How an inner loop of `addTripProcedures` ends. -/
inductive Flow (σ : Type) where
  /-- the loop ran to its end -/
  | next (p : Progress σ)
  /-- a `return` statement inside the loop was executed -/
  | ret (o : Outcome σ)

/-- Lines 56-62: the loop over `trip.Dates` of the `subscriptionMtd` procedure. -/
def subscriptionLoop {σ : Type} (st : RecordStore σ) (trip : TripInfo) :
    Progress σ → List (String × DateInfo) → Flow σ
  | p, [] => .next p
  | p, (date, dateInfo) :: rest =>
      match st.AddSubscriptionMtd trip.TripId date trip.Location p.store with
      | (some err, s) =>
          let p := p.called (.AddSubscriptionMtd trip.TripId date trip.Location) s
          .ret ((p.completed "subscriptionMtd").ret (some err))
      | (none, s) =>
          let p := p.called (.AddSubscriptionMtd trip.TripId date trip.Location) s
          subscriptionLoop st trip
            { p with changedDates := GoMap.set p.changedDates date dateInfo } rest

/-- Lines 66-80: the loop over `trip.Requests` of the `activeReqs` procedure. -/
def activeReqsLoop {σ : Type} (st : RecordStore σ) (trip : TripInfo) :
    Progress σ → List (String × String) → Flow σ
  | p, [] => .next p
  | p, (reqId, _) :: rest =>
      let err := st.GetActiveReq reqId p.store
      let p := p.called (.GetActiveReq reqId) p.store
      if err = some .ErrNoDoc then
        match st.AddActiveReq reqId trip.Dates p.store with
        | (some err, s) =>
            let p := p.called (.AddActiveReq reqId trip.Dates) s
            .ret ((p.completed "activeReqs").ret (some err))
        | (none, s) =>
            let p := p.called (.AddActiveReq reqId trip.Dates) s
            .ret (p.ret none)
      else if err ≠ none then .ret (p.ret err)
      else activeReqsLoop st trip p rest

/-- Lines 33-83: the loop over `procedures`, and the final `return` of line 85. -/
def procedureLoop {σ : Type} (st : RecordStore σ) (trip : TripInfo) :
    Progress σ → List String → Outcome σ
  | p, [] => p.ret none
  | p, procedure :: rest =>
      if procedure = "tripMtd" then
        match st.AddTripMtd trip p.store with
        | (some err, s) => (p.called (.AddTripMtd trip) s).ret (some err)
        | (none, s) =>
            procedureLoop st trip ((p.called (.AddTripMtd trip) s).completed "tripMtd") rest
      else if procedure = "subscriberMtd" then
        match st.AddTripSubscriberMtd trip.SubscriberId trip.TripId p.store with
        | (some err, s) =>
            (p.called (.AddTripSubscriberMtd trip.SubscriberId trip.TripId) s).ret (some err)
        | (none, s) =>
            procedureLoop st trip
              ((p.called (.AddTripSubscriberMtd trip.SubscriberId trip.TripId) s).completed
                "subscriberMtd") rest
      else if procedure = "subscriptionMtd" then
        match subscriptionLoop st trip p trip.Dates with
        | .ret o => o
        | .next p => procedureLoop st trip (p.completed "subscriptionMtd") rest
      else if procedure = "activeReqs" then
        match activeReqsLoop st trip p trip.Requests with
        | .ret o => o
        | .next p => procedureLoop st trip (p.completed "activeReqs") rest
      else procedureLoop st trip p rest

/-- Function `addTripProcedures` (lines 23-86), run on a record store in state `s`. -/
def addTripProcedures {σ : Type} (st : RecordStore σ) (procedures : List String)
    (trip : TripInfo) (s : σ) : Outcome σ :=
  procedureLoop st trip ⟨[], [], [], s, []⟩ procedures

/-- The record-store writes of a procedure, in the order of the source, when none of them
fails. -/
def writesOf (trip : TripInfo) (procedure : String) : List Call :=
  if procedure = "tripMtd" then [.AddTripMtd trip]
  else if procedure = "subscriberMtd" then
    [.AddTripSubscriberMtd trip.SubscriberId trip.TripId]
  else if procedure = "subscriptionMtd" then
    trip.Dates.map (fun d => .AddSubscriptionMtd trip.TripId d.1 trip.Location)
  else []

/-- The effect of one call on the store: its error and the next state. -/
def perform {σ : Type} (st : RecordStore σ) : Call → σ → Option StoreError × σ
  | .AddTripMtd trip, s => st.AddTripMtd trip s
  | .AddTripSubscriberMtd subscriberId tripId, s => st.AddTripSubscriberMtd subscriberId tripId s
  | .AddSubscriptionMtd tripId date location, s => st.AddSubscriptionMtd tripId date location s
  | .GetActiveReq reqId, s => (st.GetActiveReq reqId s, s)
  | .AddActiveReq reqId dates, s => st.AddActiveReq reqId dates s

/-- The calls are made one after the other and all succeed: the state they lead to.
`none` when one of them fails. -/
def performAll {σ : Type} (st : RecordStore σ) : List Call → σ → Option σ
  | [], s => some s
  | c :: rest, s =>
      match perform st c s with
      | (none, s') => performAll st rest s'
      | (some _, _) => none

/-- State of the in-memory record store used to run `addTripProcedures` on concrete
inputs: the documents of the four collections. -/
structure Mem where
  trips : List TripInfo
  subscribers : List (String × String)
  subscriptions : List (String × String × String)
  activeReqs : List (String × List (String × DateInfo))
deriving DecidableEq, Repr

/-- An in-memory record store. The calls for which `fails` gives an error fail with it
and write nothing; every other write adds its document; `GetActiveReq` gives `ErrNoDoc`
for a request id without a record. -/
def memStore (fails : Call → Option StoreError) : RecordStore Mem where
  AddTripMtd := fun trip s =>
    match fails (.AddTripMtd trip) with
    | some e => (some e, s)
    | none => (none, { s with trips := s.trips ++ [trip] })
  AddTripSubscriberMtd := fun subscriberId tripId s =>
    match fails (.AddTripSubscriberMtd subscriberId tripId) with
    | some e => (some e, s)
    | none => (none, { s with subscribers := s.subscribers ++ [(subscriberId, tripId)] })
  AddSubscriptionMtd := fun tripId date location s =>
    match fails (.AddSubscriptionMtd tripId date location) with
    | some e => (some e, s)
    | none =>
        (none, { s with subscriptions := s.subscriptions ++ [(tripId, date, location)] })
  GetActiveReq := fun reqId s =>
    match fails (.GetActiveReq reqId) with
    | some e => some e
    | none => if (GoMap.get? s.activeReqs reqId).isSome then none else some .ErrNoDoc
  AddActiveReq := fun reqId dates s =>
    match fails (.AddActiveReq reqId dates) with
    | some e => (some e, s)
    | none => (none, { s with activeReqs := GoMap.set s.activeReqs reqId dates })

end Trip

/-! ## Well-formed maps and concrete inputs -/

namespace Availability

/-- A snapshot that is a Go map of Go maps: every date is a key once, and within a date
every unit is a key once. -/
def WellFormed (s : Snapshot) : Prop :=
  (GoMap.keys s).Nodup ∧ ∀ p ∈ s, (GoMap.keys p.2).Nodup

/-- Two snapshots have the same dates and, on every date, the same units with the same
flags. -/
def SameAvailability (old new : Snapshot) : Prop :=
  ∀ date : String,
    (GoMap.get? old date).isSome = (GoMap.get? new date).isSome ∧
      ∀ campsite : String, unit? old date campsite = unit? new date campsite

/-- An active request for campground `232447`, with `Update` set. -/
def request (reqId : String) : ActiveRequests :=
  ⟨reqId, "232447", "https://www.recreation.gov/api/camps/availability/232447", true, []⟩

/-- A world without storage failures: every stored baseline decodes to `oldAvlbty`, the
fetch returns a body that decodes to `fetched`, and fails when `fetched` is `none`. -/
def world (oldAvlbty : Snapshot) (fetched : Option RespCampsiteData) : World where
  downloadFails := fun _ => false
  unmarshal := fun _ => some oldAvlbty
  makeRequest := fun _ _ => fetched.map (fun _ => "body")
  decode := fun _ => fetched
  marshal := fun _ => "staged"
  uploadFails := fun _ => false

/-- A payload in which campsite `A` is available on two dates. -/
def twoDatesPayload : RespCampsiteData :=
  ⟨[("A", ⟨[("2024-06-01T00:00:00Z", "Available"), ("2024-06-02T00:00:00Z", "Available")],
      "A"⟩)]⟩

/-- A payload without campsites. -/
def emptyPayload : RespCampsiteData := ⟨[]⟩

/-- A snapshot with two dates, campsite `A` available on both. -/
def twoDates : Snapshot := [("2024-06-01", [("A", true)]), ("2024-06-02", [("A", true)])]

/-- An empty bucket. -/
def noFiles : Files := fun _ => none

/-- A bucket that holds a baseline for every request. -/
def baselines : Files := fun _ => some "baseline"

end Availability

namespace Trip

/-- A trip of subscriber `s` that depends on the requests `r1` and `r2` and has one
date. -/
def sampleTrip : TripInfo :=
  ⟨"Yosemite", "t", "s", "Upper Pines", true, true, [("r1", "r1"), ("r2", "r2")],
    [("2024-06-01", ⟨true, "av1", []⟩)]⟩

/-- The in-memory record store without any document. -/
def emptyMem : Mem := ⟨[], [], [], []⟩

/-- The in-memory record store in which `r1` and `r2` have an active-request record. -/
def registeredMem : Mem := ⟨[], [], [], [("r1", []), ("r2", [])]⟩

/-- No call fails. -/
def noFailure : Call → Option StoreError := fun _ => none

/-- The write that links subscriber `s` to trip `t` fails; no other call does. -/
def subscriberWriteFails : Call → Option StoreError := fun c =>
  if c = .AddTripSubscriberMtd "s" "t" then some (.failure "subscribers: unavailable")
  else none

end Trip

namespace Availability

/-- The test of lines 187 and 200-220 on one date of `newAvlbty`: the date is not in
`oldAvlbty`, or one of its units is not in `oldAvlbty[date]` or has another flag there. -/
def changedInNew (oldAvlbty : Snapshot) (p : String × Units) : Bool :=
  (GoMap.get? oldAvlbty p.1).isNone ||
    p.2.any (fun u => decide (unit? oldAvlbty p.1 u.1 ≠ some u.2))

/-- The test of lines 228-236 on one date of `oldAvlbty`: one of its units is not in
`newAvlbty[date]`. -/
def changedInOld (newAvlbty : Snapshot) (p : String × Units) : Bool :=
  p.2.any (fun u => (unit? newAvlbty p.1 u.1).isNone)

/-- The first difference that the comparison meets: the first date of `newAvlbty`, in the
order of the range, that passes the test of the new scan, with its new unit map; when
there is none, the first date of `oldAvlbty` that passes the test of the old scan, with
its old unit map. -/
def firstChange (oldAvlbty newAvlbty : Snapshot) : Option (String × Units) :=
  match newAvlbty.find? (changedInNew oldAvlbty) with
  | some p => some p
  | none => oldAvlbty.find? (changedInOld newAvlbty)

end Availability

namespace Availability

end Availability

namespace Availability

/-- Every entry of the map has exactly one date. -/
def OneDateEach (changes : ChangeSet) : Prop :=
  ∀ p ∈ changes, ∃ date campsites, p.2 = [(date, campsites)]

end Availability

namespace Availability

/-- The baseline that an iteration compares with (lines 105-122): the decoded content
of the baseline file, the empty snapshot when the file is empty or does not exist, and
`none` when the download or the decoding fails. -/
def loadBaseline (w : World) (files : Files) (reqId : String) : Option Snapshot :=
  (downloadFileIntoMemory w files (baselineFile reqId)).bind
    (fun avlbtyByte => if avlbtyByte.length > 0 then w.unmarshal avlbtyByte else some [])

/-- The new availability that an iteration builds (lines 137-180): the normalised
payload, and `none` when the fetch or the decoding of the response fails. -/
def fetchAvailability (w : World) (reqInfo : ActiveRequests) : Option Snapshot :=
  ((w.makeRequest reqInfo.Url (WEBSITE ++ reqInfo.CampgroundId)).bind w.decode).map
    (fun req_resp => normalise [] req_resp.Campsites)

end Availability

namespace Availability

/-- A payload in which campsite `A` is available on 2024-06-01. -/
def juneFirstPayload : RespCampsiteData :=
  ⟨[("A", ⟨[("2024-06-01T00:00:00Z", "Available")], "A"⟩)]⟩

end Availability

namespace Availability

/-- The flag that the availabilities of one campsite give for a date: the status of the
first key whose date portion is the date is compared with the literal `Available`;
`none` when no key has that date portion. -/
def flagIn (availabilities : List (String × String)) (date : String) : Option Bool :=
  (availabilities.find? (fun e => decide (campDate e.1 = date))).map
    (fun e => decide (e.2 = "Available"))

/-- The flag that a payload gives for a date and a campsite. -/
def expectedFlag (campsites : List (String × CampsiteMetadata)) (date campsite : String) :
    Option Bool :=
  (GoMap.get? campsites campsite).bind (fun campInfo => flagIn campInfo.Availabilities date)

end Availability

namespace Trip

/-- The subscription write of a date of a trip. -/
def subscriptionWrite (trip : TripInfo) (date : String) : Call :=
  .AddSubscriptionMtd trip.TripId date trip.Location

/-- A trip of subscriber `s` with the two dates 2024-06-01 and 2024-06-02. -/
def twoDateTrip : TripInfo :=
  ⟨"Yosemite", "t", "s", "Upper Pines", true, true, [("r1", "r1")],
    [("2024-06-01", ⟨true, "av1", []⟩), ("2024-06-02", ⟨false, "av2", []⟩)]⟩

/-- The subscription write of 2024-06-02 for trip `t` fails; no other call does. -/
def secondDateFails : Call → Option StoreError := fun c =>
  if c = .AddSubscriptionMtd "t" "2024-06-02" "Upper Pines" then
    some (.failure "subscriptions: unavailable")
  else none

/-- The lookup of the active request `r1` fails with an error other than `ErrNoDoc`; no
other call fails. -/
def lookupFails : Call → Option StoreError := fun c =>
  if c = .GetActiveReq "r1" then some (.failure "activeReqs: deadline exceeded") else none

end Trip

/-! ## Theorems about `Changes` -/

namespace Availability

/-- C1, evaluated: on a first scan (empty bucket) whose payload has the two dates
2024-06-01 and 2024-06-02, both absent from the empty baseline, `Changes` returns the
single entry 2024-06-01 for the request; 2024-06-02 is a new date and is not in the
change set. Ranging over the new snapshot in the other order records 2024-06-02 only. -/
theorem Changes_first_scan_two_dates_reports_one :
    (Changes (world [] (some twoDatesPayload)) noFiles [("R1", request "R1")]).changes
        = [("R1", [("2024-06-01", [("A", true)])])] ∧
      normalise [] twoDatesPayload.Campsites = twoDates ∧
      GoMap.get? twoDates "2024-06-02" = some [("A", true)] ∧
      GoMap.get? ([] : Snapshot) "2024-06-02" = none ∧
      diff [] "R1" [] twoDates.reverse = [("R1", [("2024-06-02", [("A", true)])])] := by
  decide

/-- C3, evaluated: the fetch for `R1` fails, and after `Changes` has returned the record
of `R1` in the caller's `reqData` still has `Update == true`: line 144 sets the flag of
the loop variable, a copy of the map value. -/
theorem Changes_failed_fetch_leaves_Update_set :
    (world [] none).makeRequest (request "R1").Url (WEBSITE ++ (request "R1").CampgroundId)
        = none ∧
      (scanRequest (world [] none) [] noFiles "R1" (request "R1")).reqInfo.Update = false ∧
      (GoMap.get? (Changes (world [] none) noFiles [("R1", request "R1")]).reqData "R1").map
        (fun r => r.Update) = some true := by
  decide

/-- C8, evaluated: with an empty baseline and a new snapshot of two dates, ranging over
the new snapshot in the order 2024-06-01, 2024-06-02 gives the change set with
2024-06-01 only, and in the order 2024-06-02, 2024-06-01 the change set with 2024-06-02
only: the two are different maps. -/
theorem diff_depends_on_enumeration_order :
    twoDates.reverse.Perm twoDates ∧
      diff [] "R1" [] twoDates = [("R1", [("2024-06-01", [("A", true)])])] ∧
      diff [] "R1" [] twoDates.reverse = [("R1", [("2024-06-02", [("A", true)])])] ∧
      GoMap.get? ((GoMap.get? (diff [] "R1" [] twoDates) "R1").getD []) "2024-06-01"
        ≠ GoMap.get? ((GoMap.get? (diff [] "R1" [] twoDates.reverse) "R1").getD [])
            "2024-06-01" := by
  decide

/-- C9, evaluated: the baseline has the dates 2024-06-01 and 2024-06-02 and the fetched
payload has no campsite, so both dates are in old and absent from new; `Changes` returns
the single entry 2024-06-01, and 2024-06-02 is not in the change set. -/
theorem Changes_two_removed_dates_reports_one :
    (Changes (world twoDates (some emptyPayload)) baselines [("R1", request "R1")]).changes
        = [("R1", [("2024-06-01", [("A", true)])])] ∧
      normalise [] emptyPayload.Campsites = [] ∧
      GoMap.get? twoDates "2024-06-02" = some [("A", true)] ∧
      GoMap.get? ((GoMap.get?
        (Changes (world twoDates (some emptyPayload)) baselines [("R1", request "R1")]).changes
        "R1").getD []) "2024-06-02" = none := by
  decide

end Availability

namespace GoMap

variable {V : Type}

/-- A key that occurs in the list is present. -/
theorem get?_isSome_of_mem {m : List (String × V)} {k : String} {v : V} (h : (k, v) ∈ m) :
    (get? m k).isSome = true := by
  induction m with
  | nil => cases h
  | cons e rest ih =>
      obtain ⟨k', v'⟩ := e
      by_cases hk : k' = k
      · simp [get?, hk]
      · have hmem : (k, v) ∈ rest := by
          rcases List.mem_cons.mp h with heq | hrest
          · exact absurd (congrArg Prod.fst heq).symm hk
          · exact hrest
        simp [get?, hk, ih hmem]

/-- With unique keys, an entry of the list is what the lookup of its key gives. -/
theorem get?_eq_some_of_mem {m : List (String × V)} {k : String} {v : V}
    (hm : (keys m).Nodup) (h : (k, v) ∈ m) : get? m k = some v := by
  induction m with
  | nil => cases h
  | cons e rest ih =>
      obtain ⟨k', v'⟩ := e
      have hnd : k' ∉ keys rest ∧ (keys rest).Nodup := by
        simpa [keys] using hm
      rcases List.mem_cons.mp h with heq | hrest
      · cases heq
        simp [get?]
      · have hk : k' ≠ k := by
          intro hkk
          apply hnd.1
          subst hkk
          exact List.mem_map_of_mem Prod.fst hrest
        simp [get?, hk, ih hnd.2 hrest]

end GoMap

namespace Availability

/-- The unit loop of the new scan records nothing when every unit has its old flag. -/
theorem scanNewUnits_same (oldAvlbty : Snapshot) (reqId date : String) (campsites : Units)
    (changes : ChangeSet) (rest : Units)
    (h : ∀ p ∈ rest, unit? oldAvlbty date p.1 = some p.2) :
    scanNewUnits oldAvlbty reqId date campsites changes rest = changes := by
  induction rest with
  | nil => rfl
  | cons e rest ih =>
      obtain ⟨campsite, available⟩ := e
      have he := h (campsite, available) (List.mem_cons_self _ _)
      simp only at he
      simp only [scanNewUnits, he]
      simp only [ne_eq, not_true_eq_false, if_false]
      exact ih (fun p hp => h p (List.mem_cons_of_mem _ hp))

/-- The new scan records nothing when every date and unit of it is in old, same flag. -/
theorem scanNew_same (oldAvlbty : Snapshot) (reqId : String) (changes : ChangeSet)
    (rest : Snapshot)
    (h : ∀ p ∈ rest, (GoMap.get? oldAvlbty p.1).isSome = true ∧
      ∀ u ∈ p.2, unit? oldAvlbty p.1 u.1 = some u.2) :
    scanNew oldAvlbty reqId changes rest = changes := by
  induction rest with
  | nil => rfl
  | cons e rest ih =>
      obtain ⟨date, campsites⟩ := e
      have he := h (date, campsites) (List.mem_cons_self _ _)
      simp only at he
      have hsome : (GoMap.get? oldAvlbty date).isNone = false := by
        cases hg : GoMap.get? oldAvlbty date with
        | none => rw [hg] at he; exact absurd he.1 (by simp)
        | some v => rfl
      simp only [scanNew, hsome, Bool.false_eq_true, if_false]
      rw [scanNewUnits_same oldAvlbty reqId date campsites changes campsites he.2]
      exact ih (fun p hp => h p (List.mem_cons_of_mem _ hp))

/-- The unit loop of the old scan records nothing when every unit is in new. -/
theorem scanOldUnits_same (newAvlbty : Snapshot) (reqId date : String) (campsites : Units)
    (changes : ChangeSet) (rest : Units)
    (h : ∀ p ∈ rest, (unit? newAvlbty date p.1).isSome = true) :
    scanOldUnits newAvlbty reqId date campsites changes rest = changes := by
  induction rest with
  | nil => rfl
  | cons e rest ih =>
      obtain ⟨campsite, available⟩ := e
      have he := h (campsite, available) (List.mem_cons_self _ _)
      simp only at he
      have hsome : (unit? newAvlbty date campsite).isNone = false := by
        cases hg : unit? newAvlbty date campsite with
        | none => rw [hg] at he; exact absurd he (by simp)
        | some v => rfl
      simp only [scanOldUnits, hsome, Bool.false_eq_true, if_false]
      exact ih (fun p hp => h p (List.mem_cons_of_mem _ hp))

/-- The old scan records nothing when every unit of every old date is in new. -/
theorem scanOld_same (newAvlbty : Snapshot) (reqId : String) (changes : ChangeSet)
    (rest : Snapshot)
    (h : ∀ p ∈ rest, ∀ u ∈ p.2, (unit? newAvlbty p.1 u.1).isSome = true) :
    scanOld newAvlbty reqId changes rest = changes := by
  induction rest with
  | nil => rfl
  | cons e rest ih =>
      obtain ⟨date, campsites⟩ := e
      have he := h (date, campsites) (List.mem_cons_self _ _)
      simp only at he
      simp only [scanOld]
      rw [scanOldUnits_same newAvlbty reqId date campsites changes campsites he]
      exact ih (fun p hp => h p (List.mem_cons_of_mem _ hp))

/-- In a well-formed snapshot the double lookup gives the flag of an enumerated unit. -/
theorem unit?_of_mem {s : Snapshot} (hs : WellFormed s) {date : String} {campsites : Units}
    (hd : (date, campsites) ∈ s) {campsite : String} {available : Bool}
    (hu : (campsite, available) ∈ campsites) : unit? s date campsite = some available := by
  unfold unit?
  rw [GoMap.get?_eq_some_of_mem hs.1 hd]
  exact GoMap.get?_eq_some_of_mem (hs.2 _ hd) hu

/-- A snapshot has the same availability as itself. -/
theorem SameAvailability.refl (s : Snapshot) : SameAvailability s s :=
  fun _ => ⟨rfl, fun _ => rfl⟩

/-- Comparing two well-formed snapshots with the same dates, units and flags leaves
`changes` as it is. -/
theorem diff_same (changes : ChangeSet) (reqId : String) (oldAvlbty newAvlbty : Snapshot)
    (hold : WellFormed oldAvlbty) (hnew : WellFormed newAvlbty)
    (hsame : SameAvailability oldAvlbty newAvlbty) :
    diff changes reqId oldAvlbty newAvlbty = changes := by
  unfold diff
  rw [scanNew_same, scanOld_same]
  · intro p hp u hu
    rw [← (hsame p.1).2 u.1, unit?_of_mem hold hp hu]
    rfl
  · intro p hp
    refine ⟨?_, fun u hu => ?_⟩
    · rw [(hsame p.1).1]
      exact GoMap.get?_isSome_of_mem hp
    · rw [(hsame p.1).2 u.1]
      exact unit?_of_mem hnew hp hu

end Availability

namespace Availability

/-- C2: for well-formed snapshots (each date and each unit of a date a key once), the
comparison of a snapshot with itself, and of any two snapshots with the same dates and
the same unit flags on every date, writes nothing into `changes`: no entry is recorded
for the request. -/
theorem diff_unchanged_records_nothing (changes : ChangeSet) (reqId : String)
    (oldAvlbty newAvlbty : Snapshot) (hold : WellFormed oldAvlbty)
    (hnew : WellFormed newAvlbty) (hsame : SameAvailability oldAvlbty newAvlbty) :
    diff changes reqId oldAvlbty oldAvlbty = changes ∧
      diff changes reqId oldAvlbty newAvlbty = changes :=
  ⟨diff_same changes reqId oldAvlbty oldAvlbty hold hold (SameAvailability.refl oldAvlbty),
    diff_same changes reqId oldAvlbty newAvlbty hold hnew hsame⟩

/-- C2 at a concrete input: a baseline of two dates compared with itself and with the
same snapshot enumerated in the opposite order gives the empty change set. -/
theorem diff_unchanged_records_nothing_witness :
    diff [] "R1" twoDates twoDates = [] ∧ diff [] "R1" twoDates twoDates.reverse = [] :=
  diff_unchanged_records_nothing [] "R1" twoDates twoDates.reverse
    (by unfold WellFormed; decide) (by unfold WellFormed; decide)
    (by
      intro date
      by_cases h1 : "2024-06-01" = date
      · subst h1; exact ⟨by decide, fun campsite => by
          by_cases hc : "A" = campsite
          · subst hc; decide
          · simp [unit?, twoDates, GoMap.get?, hc]⟩
      · by_cases h2 : "2024-06-02" = date
        · subst h2; exact ⟨by decide, fun campsite => by
            by_cases hc : "A" = campsite
            · subst hc; decide
            · simp [unit?, twoDates, GoMap.get?, hc]⟩
        · exact ⟨by simp [twoDates, GoMap.get?, h1, h2],
            fun campsite => by simp [unit?, twoDates, GoMap.get?, h1, h2]⟩)

end Availability

namespace Availability

/-- A file other than the temporary file of the request is left as it is by the
iteration of the request. -/
theorem scanRequest_files (w : World) (changes : ChangeSet) (files : Files) (reqId : String)
    (reqInfo : ActiveRequests) (f : String) (hf : f ≠ tempFile reqId) :
    (scanRequest w changes files reqId reqInfo).files f = files f := by
  unfold scanRequest
  simp only
  split
  · rfl
  · split
    · rfl
    · split
      · rfl
      · split
        · rfl
        · split
          · rfl
          · rename_i files' hup
            unfold uploadFileFromMemory at hup
            split at hup
            · cases hup
            · cases hup
              simp [hf]

/-- A file that is the temporary file of no request of the loop is left as it is. -/
theorem scanLoop_files (w : World) (reqData : List (String × ActiveRequests)) (f : String)
    (rest : List (String × ActiveRequests)) (changes : ChangeSet) (files : Files)
    (hf : ∀ id ∈ GoMap.keys rest, f ≠ tempFile id) :
    (scanLoop w reqData changes files rest).files f = files f := by
  induction rest generalizing changes files with
  | nil => rfl
  | cons e rest ih =>
      obtain ⟨reqId, reqInfo⟩ := e
      simp only [scanLoop]
      rw [ih _ _ (fun id hid => hf id (by simp [GoMap.keys] at hid ⊢; exact Or.inr hid))]
      exact scanRequest_files w changes files reqId reqInfo f
        (hf reqId (by simp [GoMap.keys]))

/-- The temporary file of `id` is the baseline file of `id'` exactly when `id'` is
`temp_` followed by `id`. -/
theorem tempFile_eq_baselineFile (id id' : String) :
    tempFile id = baselineFile id' ↔ id' = "temp_" ++ id := by
  unfold tempFile baselineFile
  constructor
  · intro h
    have hd := congrArg String.data h
    simp only [String.data_append] at hd
    exact (String.ext (List.append_cancel_right hd)).symm
  · intro h
    rw [h]

/-- C10, as amended: when no request id of `reqData` is `temp_` followed by a request id
of `reqData`, then after `Changes` the baseline file of every request of `reqData` holds
what it held before, every file whose content differs from before is the temporary file
of a request of `reqData`, and no temporary file of a request is the baseline file of a
request. -/
theorem Changes_leaves_baselines (w : World) (files : Files)
    (reqData : List (String × ActiveRequests))
    (hids : ∀ id ∈ GoMap.keys reqData, ∀ id' ∈ GoMap.keys reqData, id' ≠ "temp_" ++ id) :
    (∀ id ∈ GoMap.keys reqData,
        (Changes w files reqData).files (baselineFile id) = files (baselineFile id)) ∧
      (∀ f : String, (Changes w files reqData).files f ≠ files f →
        ∃ id ∈ GoMap.keys reqData, f = tempFile id) ∧
      (∀ id ∈ GoMap.keys reqData, ∀ id' ∈ GoMap.keys reqData,
        tempFile id ≠ baselineFile id') := by
  have hdistinct : ∀ id ∈ GoMap.keys reqData, ∀ id' ∈ GoMap.keys reqData,
      tempFile id ≠ baselineFile id' := fun id hid id' hid' h =>
    hids id hid id' hid' ((tempFile_eq_baselineFile id id').mp h)
  refine ⟨fun id hid => ?_, fun f hf => ?_, hdistinct⟩
  · exact scanLoop_files w reqData (baselineFile id) reqData [] files
      (fun id' hid' h => hdistinct id' hid' id hid h.symm)
  · by_contra hnone
    apply hf
    exact scanLoop_files w reqData f reqData [] files
      (fun id hid h => hnone ⟨id, hid, h⟩)

/-- C10 at a concrete input: a scan of the requests `R1` and `R2` over a bucket with a
baseline for both leaves the two baselines as they are. -/
theorem Changes_leaves_baselines_witness :
    (Changes (world [] (some twoDatesPayload)) baselines
        [("R1", request "R1"), ("R2", request "R2")]).files (baselineFile "R1")
      = baselines (baselineFile "R1") :=
  (Changes_leaves_baselines (world [] (some twoDatesPayload)) baselines
    [("R1", request "R1"), ("R2", request "R2")] (by decide)).1 "R1" (by decide)

/-- C10 refuted as stated: with the request ids `a` and `temp_a` in one scan, the
temporary file of `a` is the baseline file of `temp_a`, and `Changes` replaces the
baseline stored for `temp_a` with the staged snapshot of `a`. -/
theorem Changes_overwrites_baseline_of_temp_id :
    tempFile "a" = baselineFile "temp_a" ∧
      baselines (baselineFile "temp_a") = some "baseline" ∧
      (Changes (world [] (some emptyPayload)) baselines
        [("a", request "a"), ("temp_a", request "temp_a")]).files (baselineFile "temp_a")
        = some "staged" := by
  decide

end Availability

/-! ## Theorems about `addTripProcedures` -/

namespace Trip

/-- C4, evaluated: for the procedures `activeReqs`, `tripMtd` and a trip whose request
`r1` has no record yet, `addTripProcedures` returns a nil error after creating the record
of `r1` (line 75): the completed list is empty and `AddTripMtd` is never called. -/
theorem addTripProcedures_nil_error_with_procedures_skipped :
    (addTripProcedures (memStore noFailure) ["activeReqs", "tripMtd"] sampleTrip emptyMem).err
        = none ∧
      (addTripProcedures (memStore noFailure) ["activeReqs", "tripMtd"] sampleTrip
        emptyMem).proceduresCompleted = [] ∧
      (addTripProcedures (memStore noFailure) ["activeReqs", "tripMtd"] sampleTrip
        emptyMem).calls = [.GetActiveReq "r1", .AddActiveReq "r1" sampleTrip.Dates] ∧
      (addTripProcedures (memStore noFailure) ["activeReqs", "tripMtd"] sampleTrip
        emptyMem).store.trips = [] := by
  decide

/-- C6, evaluated: the trip references `r1` and `r2`, neither has a record and no store
operation fails; after the `activeReqs` procedure `r1` has a record seeded with the
trip's dates and `r2` still has none: the function returns at line 75 after the first
creation, before `r2` is looked at. -/
theorem addTripProcedures_registers_first_missing_request_only :
    (addTripProcedures (memStore noFailure) ["activeReqs"] sampleTrip emptyMem).err = none ∧
      (addTripProcedures (memStore noFailure) ["activeReqs"] sampleTrip emptyMem).store.activeReqs
        = [("r1", sampleTrip.Dates)] ∧
      (memStore noFailure).GetActiveReq "r2"
        (addTripProcedures (memStore noFailure) ["activeReqs"] sampleTrip emptyMem).store
        = some .ErrNoDoc ∧
      (addTripProcedures (memStore noFailure) ["activeReqs"] sampleTrip emptyMem).calls
        = [.GetActiveReq "r1", .AddActiveReq "r1" sampleTrip.Dates] := by
  decide

end Trip

namespace Trip

variable {σ : Type}

/-- Performing two lists of calls in a row. -/
theorem performAll_append (st : RecordStore σ) (a b : List Call) (s : σ) :
    performAll st (a ++ b) s = (performAll st a s).bind (performAll st b) := by
  induction a generalizing s with
  | nil => rfl
  | cons c a ih =>
      simp only [List.cons_append, performAll]
      rcases hc : perform st c s with ⟨e, s'⟩
      cases e with
      | none => exact ih s'
      | some e => rfl

/-- When every subscription write succeeds, the loop over the dates runs to its end. -/
theorem subscriptionLoop_of_performAll (st : RecordStore σ) (trip : TripInfo)
    (dates : List (String × DateInfo)) (p : Progress σ) (s' : σ)
    (h : performAll st
      (dates.map (fun d => Call.AddSubscriptionMtd trip.TripId d.1 trip.Location)) p.store
        = some s') :
    ∃ p', subscriptionLoop st trip p dates = .next p' ∧
      p'.proceduresCompleted = p.proceduresCompleted ∧ p'.store = s' ∧
      p'.calls = p.calls ++
        dates.map (fun d => Call.AddSubscriptionMtd trip.TripId d.1 trip.Location) := by
  induction dates generalizing p with
  | nil =>
      refine ⟨p, rfl, rfl, ?_, by simp⟩
      simpa [performAll] using h
  | cons d dates ih =>
      obtain ⟨date, dateInfo⟩ := d
      simp only [List.map_cons, performAll, perform] at h
      rcases hw : st.AddSubscriptionMtd trip.TripId date trip.Location p.store with ⟨e, s₁⟩
      rw [hw] at h
      cases e with
      | some e => simp at h
      | none =>
          simp only at h
          obtain ⟨p', hp', hc, hs, hcalls⟩ := ih
            { (p.called (.AddSubscriptionMtd trip.TripId date trip.Location) s₁) with
              changedDates := GoMap.set p.changedDates date dateInfo } h
          refine ⟨p', ?_, hc, hs, ?_⟩
          · simp only [subscriptionLoop, hw]
            exact hp'
          · rw [hcalls]
            simp [Progress.called]

/-- The procedures of a prefix whose writes all succeed are all completed, and the loop
goes on with the rest of the list. -/
theorem procedureLoop_of_performAll (st : RecordStore σ) (trip : TripInfo) (pre rest : List String)
    (p : Progress σ) (s' : σ)
    (hpre : ∀ x ∈ pre, x = "tripMtd" ∨ x = "subscriberMtd" ∨ x = "subscriptionMtd")
    (h : performAll st (pre.flatMap (writesOf trip)) p.store = some s') :
    ∃ p', procedureLoop st trip p (pre ++ rest) = procedureLoop st trip p' rest ∧
      p'.proceduresCompleted = p.proceduresCompleted ++ pre ∧ p'.store = s' ∧
      p'.calls = p.calls ++ pre.flatMap (writesOf trip) := by
  induction pre generalizing p with
  | nil =>
      refine ⟨p, rfl, by simp, ?_, by simp⟩
      simpa [performAll] using h
  | cons x pre ih =>
      have hx := hpre x (List.mem_cons_self _ _)
      have hpre' : ∀ y ∈ pre, y = "tripMtd" ∨ y = "subscriberMtd" ∨ y = "subscriptionMtd" :=
        fun y hy => hpre y (List.mem_cons_of_mem _ hy)
      rw [List.flatMap_cons, performAll_append] at h
      rcases hx with hx | hx | hx
      · subst hx
        simp only [writesOf, if_true, performAll, perform] at h
        rcases hw : st.AddTripMtd trip p.store with ⟨e, s₁⟩
        rw [hw] at h
        cases e with
        | some e => simp at h
        | none =>
            simp only [Option.bind] at h
            obtain ⟨p', hp', hc, hs, hcalls⟩ :=
              ih ((p.called (.AddTripMtd trip) s₁).completed "tripMtd") hpre' h
            refine ⟨p', ?_, ?_, hs, ?_⟩
            · simp only [List.cons_append, procedureLoop, if_true, hw]
              exact hp'
            · rw [hc]; simp [Progress.called, Progress.completed]
            · rw [hcalls]; simp [Progress.called, Progress.completed, writesOf]
      · subst hx
        simp only [writesOf, performAll, perform] at h
        rcases hw : st.AddTripSubscriberMtd trip.SubscriberId trip.TripId p.store with ⟨e, s₁⟩
        simp only [show ¬ ("subscriberMtd" = "tripMtd") by decide, if_false, if_true,
          performAll, perform, hw] at h
        cases e with
        | some e => simp at h
        | none =>
            simp only [Option.bind] at h
            obtain ⟨p', hp', hc, hs, hcalls⟩ :=
              ih ((p.called (.AddTripSubscriberMtd trip.SubscriberId trip.TripId) s₁).completed
                "subscriberMtd") hpre' h
            refine ⟨p', ?_, ?_, hs, ?_⟩
            · simp only [List.cons_append, procedureLoop,
                show ¬ ("subscriberMtd" = "tripMtd") by decide, if_false, if_true, hw]
              exact hp'
            · rw [hc]; simp [Progress.called, Progress.completed]
            · rw [hcalls]; simp [Progress.called, Progress.completed, writesOf]
      · subst hx
        simp only [writesOf, show ¬ ("subscriptionMtd" = "tripMtd") by decide,
          show ¬ ("subscriptionMtd" = "subscriberMtd") by decide, if_false, if_true] at h
        cases hsub : performAll st
            (trip.Dates.map (fun d => Call.AddSubscriptionMtd trip.TripId d.1 trip.Location))
            p.store with
        | none => rw [hsub] at h; simp at h
        | some s₁ =>
            rw [hsub] at h
            simp only [Option.bind] at h
            obtain ⟨p₁, hp₁, hc₁, hs₁, hcalls₁⟩ :=
              subscriptionLoop_of_performAll st trip trip.Dates p s₁ hsub
            obtain ⟨p', hp', hc, hs, hcalls⟩ :=
              ih (p₁.completed "subscriptionMtd") hpre' (by simpa [Progress.completed, hs₁] using h)
            refine ⟨p', ?_, ?_, hs, ?_⟩
            · simp only [List.cons_append, procedureLoop,
                show ¬ ("subscriptionMtd" = "tripMtd") by decide,
                show ¬ ("subscriptionMtd" = "subscriberMtd") by decide, if_false, if_true, hp₁]
              exact hp'
            · rw [hc]; simp [Progress.completed, hc₁]
            · rw [hcalls]
              simp [Progress.completed, hcalls₁, writesOf]

end Trip

namespace Trip

variable {σ : Type}

/-- C5: the procedures before position `pre.length` are `tripMtd`, `subscriberMtd` and
`subscriptionMtd` steps whose writes all succeed, and the write of the `tripMtd` or
`subscriberMtd` step at that position fails with `e`. Then `addTripProcedures` returns
`e`, the completed list is the list of the procedures before that position, and the
calls made are the writes of those procedures followed by the failing write: no store
operation of a later procedure is attempted. -/
theorem addTripProcedures_stops_at_failed_write (st : RecordStore σ) (trip : TripInfo)
    (pre post : List String) (step : String) (s sᵢ s' : σ) (e : StoreError)
    (hpre : ∀ x ∈ pre, x = "tripMtd" ∨ x = "subscriberMtd" ∨ x = "subscriptionMtd")
    (hstep : step = "tripMtd" ∨ step = "subscriberMtd")
    (hbefore : performAll st (pre.flatMap (writesOf trip)) s = some sᵢ)
    (hfail : ∀ c ∈ writesOf trip step, perform st c sᵢ = (some e, s')) :
    (addTripProcedures st (pre ++ step :: post) trip s).err = some e ∧
      (addTripProcedures st (pre ++ step :: post) trip s).proceduresCompleted = pre ∧
      (addTripProcedures st (pre ++ step :: post) trip s).calls
        = pre.flatMap (writesOf trip) ++ writesOf trip step ∧
      (addTripProcedures st (pre ++ step :: post) trip s).store = s' := by
  obtain ⟨p, hp, hc, hs, hcalls⟩ :=
    procedureLoop_of_performAll st trip pre (step :: post) ⟨[], [], [], s, []⟩ sᵢ hpre hbefore
  unfold addTripProcedures
  rw [hp]
  simp only [List.nil_append] at hc hcalls
  rcases hstep with hstep | hstep
  · subst hstep
    have hw := hfail (.AddTripMtd trip) (by simp [writesOf])
    simp only [perform, ← hs] at hw
    simp [procedureLoop, hw, Progress.ret, Progress.called, hc, hcalls, writesOf]
  · subst hstep
    have hw := hfail (.AddTripSubscriberMtd trip.SubscriberId trip.TripId) (by simp [writesOf])
    simp only [perform, ← hs] at hw
    simp [procedureLoop, hw, Progress.ret, Progress.called, hc, hcalls, writesOf]

/-- C5 at a concrete input: for `tripMtd`, `subscriberMtd`, `subscriptionMtd` with the
subscriber write failing, the error is the one of that write, the completed list is
`tripMtd` alone and the two calls made are the trip write and the subscriber write. -/
theorem addTripProcedures_stops_at_failed_write_witness :
    (addTripProcedures (memStore subscriberWriteFails)
        (["tripMtd"] ++ "subscriberMtd" :: ["subscriptionMtd"]) sampleTrip emptyMem).err
        = some (.failure "subscribers: unavailable") ∧
      (addTripProcedures (memStore subscriberWriteFails)
        (["tripMtd"] ++ "subscriberMtd" :: ["subscriptionMtd"]) sampleTrip
        emptyMem).proceduresCompleted = ["tripMtd"] ∧
      (addTripProcedures (memStore subscriberWriteFails)
        (["tripMtd"] ++ "subscriberMtd" :: ["subscriptionMtd"]) sampleTrip emptyMem).calls
        = ["tripMtd"].flatMap (writesOf sampleTrip) ++ writesOf sampleTrip "subscriberMtd" ∧
      (addTripProcedures (memStore subscriberWriteFails)
        (["tripMtd"] ++ "subscriberMtd" :: ["subscriptionMtd"]) sampleTrip emptyMem).store
        = ⟨[sampleTrip], [], [], []⟩ :=
  addTripProcedures_stops_at_failed_write (memStore subscriberWriteFails) sampleTrip
    ["tripMtd"] ["subscriptionMtd"] "subscriberMtd" emptyMem ⟨[sampleTrip], [], [], []⟩
    ⟨[sampleTrip], [], [], []⟩ (.failure "subscribers: unavailable")
    (by decide) (by decide) (by decide) (by decide)

/-- When every request id has a record, the loop over the requests only reads. -/
theorem activeReqsLoop_registered (st : RecordStore σ) (trip : TripInfo)
    (reqs : List (String × String)) (p : Progress σ)
    (h : ∀ reqId ∈ GoMap.keys reqs, st.GetActiveReq reqId p.store = none) :
    activeReqsLoop st trip p reqs
      = .next { p with calls := p.calls ++ (GoMap.keys reqs).map Call.GetActiveReq } := by
  induction reqs generalizing p with
  | nil => simp [activeReqsLoop, GoMap.keys]
  | cons r reqs ih =>
      obtain ⟨reqId, v⟩ := r
      have hr := h reqId (by simp [GoMap.keys])
      simp only [activeReqsLoop, hr]
      simp only [reduceCtorEq, if_false, ne_eq, not_true_eq_false]
      rw [ih (p.called (.GetActiveReq reqId) p.store)
        (fun id hid => h id (by simp [GoMap.keys] at hid ⊢; exact Or.inr hid))]
      simp [Progress.called, GoMap.keys]

/-- C7: when `GetActiveReq` succeeds for every request id of the trip, the `activeReqs`
procedure returns no error, `activeReqs` is the completed list, the calls made are the
lookups of the request ids, none of them an `AddActiveReq`, the store is in the state it
was in, and running the procedure again on that store gives the same outcome. -/
theorem addTripProcedures_activeReqs_registered (st : RecordStore σ) (trip : TripInfo) (s : σ)
    (h : ∀ reqId ∈ GoMap.keys trip.Requests, st.GetActiveReq reqId s = none) :
    (addTripProcedures st ["activeReqs"] trip s).err = none ∧
      (addTripProcedures st ["activeReqs"] trip s).proceduresCompleted = ["activeReqs"] ∧
      (addTripProcedures st ["activeReqs"] trip s).calls
        = (GoMap.keys trip.Requests).map Call.GetActiveReq ∧
      (∀ reqId dates,
        Call.AddActiveReq reqId dates ∉ (addTripProcedures st ["activeReqs"] trip s).calls) ∧
      (addTripProcedures st ["activeReqs"] trip s).store = s ∧
      addTripProcedures st ["activeReqs"] trip (addTripProcedures st ["activeReqs"] trip s).store
        = addTripProcedures st ["activeReqs"] trip s := by
  have hrun : addTripProcedures st ["activeReqs"] trip s
      = ⟨["activeReqs"], [], [], none, s, (GoMap.keys trip.Requests).map Call.GetActiveReq⟩ := by
    unfold addTripProcedures
    simp only [procedureLoop, show ¬ ("activeReqs" = "tripMtd") by decide,
      show ¬ ("activeReqs" = "subscriberMtd") by decide,
      show ¬ ("activeReqs" = "subscriptionMtd") by decide, if_false, if_true]
    rw [activeReqsLoop_registered st trip trip.Requests ⟨[], [], [], s, []⟩ h]
    simp [procedureLoop, Progress.ret, Progress.completed]
  rw [hrun]
  refine ⟨rfl, rfl, rfl, ?_, rfl, hrun⟩
  intro reqId dates hmem
  simp at hmem

/-- C7 at a concrete input: `r1` and `r2` both have a record; the procedure completes
with two lookups and leaves the store as it is. -/
theorem addTripProcedures_activeReqs_registered_witness :
    (addTripProcedures (memStore noFailure) ["activeReqs"] sampleTrip registeredMem).calls
        = [.GetActiveReq "r1", .GetActiveReq "r2"] ∧
      (addTripProcedures (memStore noFailure) ["activeReqs"] sampleTrip registeredMem).store
        = registeredMem :=
  have h := addTripProcedures_activeReqs_registered (memStore noFailure) sampleTrip
    registeredMem (by decide)
  ⟨h.2.2.1, h.2.2.2.2.1⟩

end Trip

/-! ## The comparison as a function of the first difference -/

namespace GoMap

variable {V : Type}

/-- After `m[k] = v` the key `k` has the value `v`. -/
theorem get?_set_self (m : List (String × V)) (k : String) (v : V) :
    get? (set m k v) k = some v := by
  induction m with
  | nil => simp [set, get?]
  | cons e rest ih =>
      obtain ⟨k', v'⟩ := e
      by_cases hk : k' = k
      · simp [set, get?, hk]
      · simp [set, get?, hk, ih]

/-- The assignment `m[k] = v` leaves the other keys as they are. -/
theorem get?_set_ne (m : List (String × V)) {k k₁ : String} (v : V) (h : k₁ ≠ k) :
    get? (set m k v) k₁ = get? m k₁ := by
  induction m with
  | nil => simp [set, get?, Ne.symm h]
  | cons e rest ih =>
      obtain ⟨k', v'⟩ := e
      by_cases hk : k' = k
      · subst hk
        simp [set, get?, Ne.symm h]
      · by_cases hk₁ : k' = k₁
        · subst hk₁
          simp [set, get?, h]
        · simp [set, get?, hk, hk₁, ih]

/-- An entry of the map after `m[k] = v` is an entry of `m` or the new entry. -/
theorem mem_set {m : List (String × V)} {k : String} {v : V} {p : String × V}
    (h : p ∈ set m k v) : p ∈ m ∨ p = (k, v) := by
  induction m with
  | nil => simpa [set] using h
  | cons e rest ih =>
      obtain ⟨k', v'⟩ := e
      by_cases hk : k' = k
      · simp only [set, hk, if_true, List.mem_cons] at h
        rcases h with h | h
        · exact Or.inr h
        · exact Or.inl (List.mem_cons_of_mem _ h)
      · simp only [set, hk, if_false, List.mem_cons] at h
        rcases h with h | h
        · exact Or.inl (h ▸ List.mem_cons_self _ _)
        · rcases ih h with h | h
          · exact Or.inl (List.mem_cons_of_mem _ h)
          · exact Or.inr h

/-- A value that the lookup gives is the value of an entry of the list. -/
theorem mem_of_get? {m : List (String × V)} {k : String} {v : V} (h : get? m k = some v) :
    (k, v) ∈ m := by
  induction m with
  | nil => simp [get?] at h
  | cons e rest ih =>
      obtain ⟨k', v'⟩ := e
      by_cases hk : k' = k
      · simp only [get?, hk, if_true, Option.some.injEq] at h
        subst hk; subst h
        exact List.mem_cons_self _ _
      · simp only [get?, hk, if_false] at h
        exact List.mem_cons_of_mem _ (ih h)

/-- Creating the entry of an absent key and assigning it again appends one entry. -/
theorem set_set_of_absent {m : List (String × V)} {k : String} (h : get? m k = none)
    (v v₁ : V) : set (set m k v) k v₁ = m ++ [(k, v₁)] := by
  induction m with
  | nil => simp [set]
  | cons e rest ih =>
      obtain ⟨k', v'⟩ := e
      by_cases hk : k' = k
      · simp [get?, hk] at h
      · simp only [get?, hk, if_false] at h
        simp [set, hk, ih h]

/-- A key without value is the key of no entry. -/
theorem not_mem_keys_of_get? {m : List (String × V)} {k : String} (h : get? m k = none) :
    k ∉ keys m := by
  intro hk
  obtain ⟨p, hp, hpk⟩ := List.mem_map.mp hk
  have := @get?_isSome_of_mem V m p.1 p.2 hp
  rw [hpk, h] at this
  simp at this

/-- A key that is the key of no entry has no value. -/
theorem get?_of_not_mem_keys {m : List (String × V)} {k : String} (h : k ∉ keys m) :
    get? m k = none := by
  cases hg : get? m k with
  | none => rfl
  | some v => exact absurd (List.mem_map_of_mem Prod.fst (mem_of_get? hg)) h

end GoMap

namespace Availability

/-- The guarded write does nothing when the request has an entry. -/
theorem recordChange_of_present {changes : ChangeSet} {reqId : String}
    (h : (GoMap.get? changes reqId).isSome = true) (date : String) (campsites : Units) :
    recordChange changes reqId date campsites = changes := by
  simp [recordChange, h]

/-- The guarded write appends the entry with the one date when the request has none. -/
theorem recordChange_of_absent {changes : ChangeSet} {reqId : String}
    (h : GoMap.get? changes reqId = none) (date : String) (campsites : Units) :
    recordChange changes reqId date campsites = changes ++ [(reqId, [(date, campsites)])] := by
  unfold recordChange
  simp only [h, Option.isSome_none, Bool.false_eq_true, if_false, GoMap.get?_set_self,
    Option.getD_some, GoMap.set]
  exact GoMap.set_set_of_absent h _ _

/-- The entry of the request after the guarded write: the entry it had, or the entry
with the one date that is written. -/
theorem get?_recordChange_self (changes : ChangeSet) (reqId date : String)
    (campsites : Units) :
    GoMap.get? (recordChange changes reqId date campsites) reqId
      = some ((GoMap.get? changes reqId).getD [(date, campsites)]) := by
  unfold recordChange
  cases hg : GoMap.get? changes reqId with
  | some v => simp [hg]
  | none => simp [GoMap.get?_set_self, GoMap.set]

/-- The guarded write leaves the entries of the other requests as they are. -/
theorem get?_recordChange_ne (changes : ChangeSet) {reqId k : String} (date : String)
    (campsites : Units) (h : k ≠ reqId) :
    GoMap.get? (recordChange changes reqId date campsites) k = GoMap.get? changes k := by
  unfold recordChange
  split
  · rfl
  · simp [GoMap.get?_set_ne _ _ h]

/-- An entry of `changes` after the guarded write is an entry from before or the entry
with the one date that is written. -/
theorem mem_recordChange {changes : ChangeSet} {reqId date : String} {campsites : Units}
    {p : String × Snapshot} (h : p ∈ recordChange changes reqId date campsites) :
    p ∈ changes ∨ p = (reqId, [(date, campsites)]) := by
  cases hg : GoMap.get? changes reqId with
  | some v => exact Or.inl (by rwa [recordChange_of_present (by simp [hg])] at h)
  | none =>
      rw [recordChange_of_absent hg] at h
      simpa using h

/-- The unit loop of the new scan writes exactly when a unit passes its test. -/
theorem scanNewUnits_eq (oldAvlbty : Snapshot) (reqId date : String) (campsites : Units)
    (changes : ChangeSet) (rest : Units) :
    scanNewUnits oldAvlbty reqId date campsites changes rest
      = if rest.any (fun u => decide (unit? oldAvlbty date u.1 ≠ some u.2)) then
          recordChange changes reqId date campsites
        else changes := by
  induction rest with
  | nil => simp [scanNewUnits]
  | cons e rest ih =>
      obtain ⟨campsite, available⟩ := e
      cases hu : unit? oldAvlbty date campsite with
      | none => simp [scanNewUnits, hu]
      | some was =>
          by_cases ha : available = was
          · subst ha
            have hstep : scanNewUnits oldAvlbty reqId date campsites changes
                ((campsite, available) :: rest)
                = scanNewUnits oldAvlbty reqId date campsites changes rest := by
              simp [scanNewUnits, hu]
            have hany : ((campsite, available) :: rest).any
                (fun u => decide (unit? oldAvlbty date u.1 ≠ some u.2))
                = rest.any (fun u => decide (unit? oldAvlbty date u.1 ≠ some u.2)) := by
              simp [List.any_cons, hu]
            rw [hstep, ih, hany]
          · have hne : ¬ (was = available) := fun h => ha h.symm
            simp [scanNewUnits, hu, ha, hne]

/-- The unit loop of the old scan writes exactly when a unit passes its test. -/
theorem scanOldUnits_eq (newAvlbty : Snapshot) (reqId date : String) (campsites : Units)
    (changes : ChangeSet) (rest : Units) :
    scanOldUnits newAvlbty reqId date campsites changes rest
      = if rest.any (fun u => (unit? newAvlbty date u.1).isNone) then
          recordChange changes reqId date campsites
        else changes := by
  induction rest with
  | nil => simp [scanOldUnits]
  | cons e rest ih =>
      obtain ⟨campsite, available⟩ := e
      cases hu : unit? newAvlbty date campsite with
      | none => simp [scanOldUnits, hu]
      | some was =>
          have hstep : scanOldUnits newAvlbty reqId date campsites changes
              ((campsite, available) :: rest)
              = scanOldUnits newAvlbty reqId date campsites changes rest := by
            simp [scanOldUnits, hu]
          have hany : ((campsite, available) :: rest).any
              (fun u => (unit? newAvlbty date u.1).isNone)
              = rest.any (fun u => (unit? newAvlbty date u.1).isNone) := by
            simp [List.any_cons, hu]
          rw [hstep, ih, hany]

/-- One date of the new scan: the guarded write when the date passes the test. -/
theorem scanNew_cons (oldAvlbty : Snapshot) (reqId : String) (changes : ChangeSet)
    (p : String × Units) (rest : Snapshot) :
    scanNew oldAvlbty reqId changes (p :: rest)
      = scanNew oldAvlbty reqId
          (if changedInNew oldAvlbty p then recordChange changes reqId p.1 p.2 else changes)
          rest := by
  obtain ⟨date, campsites⟩ := p
  cases hg : GoMap.get? oldAvlbty date with
  | none => simp [scanNew, changedInNew, hg]
  | some v =>
      simp only [scanNew, changedInNew, hg, Option.isNone_some, Bool.false_eq_true, if_false,
        Bool.false_or, scanNewUnits_eq]

/-- One date of the old scan: the guarded write when the date passes the test. -/
theorem scanOld_cons (newAvlbty : Snapshot) (reqId : String) (changes : ChangeSet)
    (p : String × Units) (rest : Snapshot) :
    scanOld newAvlbty reqId changes (p :: rest)
      = scanOld newAvlbty reqId
          (if changedInOld newAvlbty p then recordChange changes reqId p.1 p.2 else changes)
          rest := by
  obtain ⟨date, campsites⟩ := p
  simp only [scanOld, changedInOld, scanOldUnits_eq]

/-- The new scan writes nothing when the request has an entry. -/
theorem scanNew_of_present (oldAvlbty : Snapshot) (reqId : String) (changes : ChangeSet)
    (rest : Snapshot) (h : (GoMap.get? changes reqId).isSome = true) :
    scanNew oldAvlbty reqId changes rest = changes := by
  induction rest with
  | nil => rfl
  | cons p rest ih =>
      rw [scanNew_cons, recordChange_of_present h]
      simpa using ih

/-- The old scan writes nothing when the request has an entry. -/
theorem scanOld_of_present (newAvlbty : Snapshot) (reqId : String) (changes : ChangeSet)
    (rest : Snapshot) (h : (GoMap.get? changes reqId).isSome = true) :
    scanOld newAvlbty reqId changes rest = changes := by
  induction rest with
  | nil => rfl
  | cons p rest ih =>
      rw [scanOld_cons, recordChange_of_present h]
      simpa using ih

/-- After the guarded write the request has an entry. -/
theorem recordChange_present (changes : ChangeSet) (reqId date : String) (campsites : Units) :
    (GoMap.get? (recordChange changes reqId date campsites) reqId).isSome = true := by
  rw [get?_recordChange_self]; rfl

/-- The new scan is the guarded write of the first date that passes its test. -/
theorem scanNew_eq (oldAvlbty : Snapshot) (reqId : String) (changes : ChangeSet)
    (newAvlbty : Snapshot) :
    scanNew oldAvlbty reqId changes newAvlbty
      = match newAvlbty.find? (changedInNew oldAvlbty) with
        | some p => recordChange changes reqId p.1 p.2
        | none => changes := by
  induction newAvlbty with
  | nil => rfl
  | cons p rest ih =>
      rw [scanNew_cons]
      by_cases hp : changedInNew oldAvlbty p = true
      · simp only [hp, if_true, List.find?_cons_of_pos]
        exact scanNew_of_present _ _ _ _ (recordChange_present _ _ _ _)
      · simp only [hp, Bool.false_eq_true, if_false]
        rw [ih, List.find?_cons_of_neg _ hp]

/-- The old scan is the guarded write of the first date that passes its test. -/
theorem scanOld_eq (newAvlbty : Snapshot) (reqId : String) (changes : ChangeSet)
    (oldAvlbty : Snapshot) :
    scanOld newAvlbty reqId changes oldAvlbty
      = match oldAvlbty.find? (changedInOld newAvlbty) with
        | some p => recordChange changes reqId p.1 p.2
        | none => changes := by
  induction oldAvlbty with
  | nil => rfl
  | cons p rest ih =>
      rw [scanOld_cons]
      by_cases hp : changedInOld newAvlbty p = true
      · simp only [hp, if_true, List.find?_cons_of_pos]
        exact scanOld_of_present _ _ _ _ (recordChange_present _ _ _ _)
      · simp only [hp, Bool.false_eq_true, if_false]
        rw [ih, List.find?_cons_of_neg _ hp]

/-- The comparison of lines 183-238 is the guarded write of the first difference. -/
theorem diff_eq (changes : ChangeSet) (reqId : String) (oldAvlbty newAvlbty : Snapshot) :
    diff changes reqId oldAvlbty newAvlbty
      = match firstChange oldAvlbty newAvlbty with
        | some p => recordChange changes reqId p.1 p.2
        | none => changes := by
  unfold diff firstChange
  rw [scanNew_eq]
  cases hn : newAvlbty.find? (changedInNew oldAvlbty) with
  | some p =>
      simp only
      exact scanOld_of_present _ _ _ _ (recordChange_present _ _ _ _)
  | none =>
      simp only
      exact scanOld_eq _ _ _ _

end Availability

namespace Availability

/-- The first difference is a date of `newAvlbty` that passes the test of the new scan,
or a date of `oldAvlbty` that passes the test of the old scan. -/
theorem firstChange_some {oldAvlbty newAvlbty : Snapshot} {p : String × Units}
    (h : firstChange oldAvlbty newAvlbty = some p) :
    (p ∈ newAvlbty ∧ changedInNew oldAvlbty p = true) ∨
      (p ∈ oldAvlbty ∧ changedInOld newAvlbty p = true) := by
  unfold firstChange at h
  cases hn : newAvlbty.find? (changedInNew oldAvlbty) with
  | some q =>
      rw [hn] at h
      simp only [Option.some.injEq] at h
      subst h
      exact Or.inl ⟨List.mem_of_find?_eq_some hn, List.find?_some hn⟩
  | none =>
      rw [hn] at h
      exact Or.inr ⟨List.mem_of_find?_eq_some h, List.find?_some h⟩

/-- C17: the request has no entry before the comparison of two well-formed snapshots.
Then every date `d` with payload `units` in the entry that the comparison records for
the request differs between the snapshots: `d` is missing from old, or a unit of
`new[d]` is missing from `old[d]` or has another flag there, or a unit of `old[d]` is
missing from `new[d]`; and the payload is `new[d]` or `old[d]`. -/
theorem diff_reports_only_differences (changes : ChangeSet) (reqId : String)
    (oldAvlbty newAvlbty : Snapshot) (hold : WellFormed oldAvlbty)
    (hnew : WellFormed newAvlbty) (habsent : GoMap.get? changes reqId = none)
    (entry : Snapshot) (d : String) (units : Units)
    (hentry : GoMap.get? (diff changes reqId oldAvlbty newAvlbty) reqId = some entry)
    (hd : GoMap.get? entry d = some units) :
    (GoMap.get? oldAvlbty d = none ∨
        (∃ campsite available, unit? newAvlbty d campsite = some available ∧
          unit? oldAvlbty d campsite ≠ some available) ∨
        (∃ campsite, (unit? oldAvlbty d campsite).isSome = true ∧
          unit? newAvlbty d campsite = none)) ∧
      (GoMap.get? newAvlbty d = some units ∨ GoMap.get? oldAvlbty d = some units) := by
  rw [diff_eq] at hentry
  cases hf : firstChange oldAvlbty newAvlbty with
  | none =>
      rw [hf] at hentry
      simp only at hentry
      rw [habsent] at hentry
      cases hentry
  | some p =>
      obtain ⟨date, campsites⟩ := p
      rw [hf] at hentry
      simp only [get?_recordChange_self, habsent, Option.getD_none, Option.some.injEq] at hentry
      subst hentry
      have hdate : date = d ∧ campsites = units := by
        by_cases hdd : date = d
        · simp only [GoMap.get?, hdd, if_true, Option.some.injEq] at hd
          exact ⟨hdd, hd⟩
        · simp [GoMap.get?, hdd] at hd
      obtain ⟨rfl, rfl⟩ := hdate
      rcases firstChange_some hf with ⟨hmem, hch⟩ | ⟨hmem, hch⟩
      · have hget := GoMap.get?_eq_some_of_mem hnew.1 hmem
        refine ⟨?_, Or.inl hget⟩
        simp only [changedInNew, Bool.or_eq_true, Option.isNone_iff_eq_none,
          List.any_eq_true, decide_eq_true_eq] at hch
        rcases hch with hnone | ⟨u, hu, hne⟩
        · exact Or.inl hnone
        · exact Or.inr (Or.inl ⟨u.1, u.2, unit?_of_mem hnew hmem hu, hne⟩)
      · have hget := GoMap.get?_eq_some_of_mem hold.1 hmem
        refine ⟨?_, Or.inr hget⟩
        simp only [changedInOld, List.any_eq_true, Option.isNone_iff_eq_none] at hch
        obtain ⟨u, hu, hnone⟩ := hch
        refine Or.inr (Or.inr ⟨u.1, ?_, hnone⟩)
        rw [unit?_of_mem hold hmem hu]
        rfl

/-- C17 at a concrete input: on a first scan of two dates the recorded date 2024-06-01
is missing from the empty baseline and its payload is the new unit map. -/
theorem diff_reports_only_differences_witness :
    (GoMap.get? ([] : Snapshot) "2024-06-01" = none ∨
        (∃ campsite available, unit? twoDates "2024-06-01" campsite = some available ∧
          unit? [] "2024-06-01" campsite ≠ some available) ∨
        (∃ campsite, (unit? [] "2024-06-01" campsite).isSome = true ∧
          unit? twoDates "2024-06-01" campsite = none)) ∧
      (GoMap.get? twoDates "2024-06-01" = some [("A", true)] ∨
        GoMap.get? ([] : Snapshot) "2024-06-01" = some [("A", true)]) :=
  diff_reports_only_differences [] "R1" [] twoDates (by unfold WellFormed; decide)
    (by unfold WellFormed; decide) (by decide) [("2024-06-01", [("A", true)])] "2024-06-01"
    [("A", true)] (by decide) (by decide)

end Availability

namespace Availability

/-- The search gives the only element of the list that passes the test. -/
theorem find?_of_unique {α : Type} {q : α → Bool} {l : List α} {x : α} (hx : x ∈ l)
    (hq : q x = true) (huniq : ∀ y ∈ l, q y = true → y = x) : l.find? q = some x := by
  cases hf : l.find? q with
  | none => exact absurd hq (List.find?_eq_none.mp hf x hx)
  | some y => rw [huniq y (List.mem_of_find?_eq_some hf) (List.find?_some hf)]

end Availability

/-! ## One iteration of the scan -/

namespace Availability

/-- The iteration of a request in terms of its baseline and its new availability. -/
theorem scanRequest_eq (w : World) (changes : ChangeSet) (files : Files) (reqId : String)
    (reqInfo : ActiveRequests) :
    scanRequest w changes files reqId reqInfo
      = match loadBaseline w files reqId, fetchAvailability w reqInfo with
        | some oldAvlbty, some newAvlbty =>
            match uploadFileFromMemory w files (tempFile reqId) newAvlbty with
            | none =>
                ⟨diff changes reqId oldAvlbty newAvlbty, files, { reqInfo with Update := false }⟩
            | some files' => ⟨diff changes reqId oldAvlbty newAvlbty, files', reqInfo⟩
        | _, _ => ⟨changes, files, { reqInfo with Update := false }⟩ := by
  unfold scanRequest loadBaseline fetchAvailability
  dsimp only
  cases hdl : downloadFileIntoMemory w files (baselineFile reqId) with
  | none => simp
  | some avlbtyByte =>
      simp only [Option.some_bind]
      cases hun : (if avlbtyByte.length > 0 then w.unmarshal avlbtyByte else some []) with
      | none => simp
      | some oldAvlbty =>
          cases hreq : w.makeRequest reqInfo.Url (WEBSITE ++ reqInfo.CampgroundId) with
          | none => simp
          | some resp_body =>
              simp only [Option.some_bind]
              cases hdec : w.decode resp_body with
              | none => simp
              | some req_resp => simp

/-- The comparison leaves the entries of the other requests as they are. -/
theorem get?_diff_ne (changes : ChangeSet) {reqId k : String} (oldAvlbty newAvlbty : Snapshot)
    (h : k ≠ reqId) :
    GoMap.get? (diff changes reqId oldAvlbty newAvlbty) k = GoMap.get? changes k := by
  rw [diff_eq]
  cases firstChange oldAvlbty newAvlbty with
  | none => rfl
  | some p => exact get?_recordChange_ne changes p.1 p.2 h

/-- The entry that the comparison leaves for a request without entry depends on the two
snapshots only. -/
theorem get?_diff_self {changes₁ changes₂ : ChangeSet} {reqId : String}
    (h₁ : GoMap.get? changes₁ reqId = none) (h₂ : GoMap.get? changes₂ reqId = none)
    (oldAvlbty newAvlbty : Snapshot) :
    GoMap.get? (diff changes₁ reqId oldAvlbty newAvlbty) reqId
      = GoMap.get? (diff changes₂ reqId oldAvlbty newAvlbty) reqId := by
  rw [diff_eq, diff_eq]
  cases firstChange oldAvlbty newAvlbty with
  | none => simp only [h₁, h₂]
  | some p => simp only [get?_recordChange_self, h₁, h₂]

/-- The comparison keeps every entry at one date. -/
theorem OneDateEach.diff {changes : ChangeSet} (h : OneDateEach changes) (reqId : String)
    (oldAvlbty newAvlbty : Snapshot) :
    OneDateEach (Availability.diff changes reqId oldAvlbty newAvlbty) := by
  rw [diff_eq]
  cases firstChange oldAvlbty newAvlbty with
  | none => exact h
  | some p =>
      intro q hq
      rcases mem_recordChange hq with hq | hq
      · exact h q hq
      · exact ⟨p.1, p.2, by rw [hq]⟩

/-- The map `changes` after an iteration: as before, or after a comparison. -/
theorem scanRequest_changes (w : World) (changes : ChangeSet) (files : Files) (reqId : String)
    (reqInfo : ActiveRequests) :
    (scanRequest w changes files reqId reqInfo).changes = changes ∨
      ∃ oldAvlbty newAvlbty,
        (scanRequest w changes files reqId reqInfo).changes
          = diff changes reqId oldAvlbty newAvlbty := by
  rw [scanRequest_eq]
  cases loadBaseline w files reqId with
  | none => exact Or.inl rfl
  | some oldAvlbty =>
      cases fetchAvailability w reqInfo with
      | none => exact Or.inl rfl
      | some newAvlbty =>
          refine Or.inr ⟨oldAvlbty, newAvlbty, ?_⟩
          simp only
          cases uploadFileFromMemory w files (tempFile reqId) newAvlbty <;> rfl

/-- The loop over the requests keeps every entry at one date. -/
theorem OneDateEach.scanLoop (w : World) (reqData : List (String × ActiveRequests))
    (rest : List (String × ActiveRequests)) (changes : ChangeSet) (files : Files)
    (h : OneDateEach changes) :
    OneDateEach (Availability.scanLoop w reqData changes files rest).changes := by
  induction rest generalizing changes files with
  | nil => exact h
  | cons e rest ih =>
      obtain ⟨reqId, reqInfo⟩ := e
      simp only [Availability.scanLoop]
      apply ih
      rcases scanRequest_changes w changes files reqId reqInfo with hc | ⟨o, n, hc⟩
      · rw [hc]; exact h
      · rw [hc]; exact h.diff reqId o n

/-- C18: every entry of the map that `Changes` returns has exactly one date, and so has
the entry that a lookup of a request id gives. -/
theorem Changes_one_date_per_request (w : World) (files : Files)
    (reqData : List (String × ActiveRequests)) :
    (∀ p ∈ (Changes w files reqData).changes, ∃ date campsites, p.2 = [(date, campsites)]) ∧
      ∀ reqId entry, GoMap.get? (Changes w files reqData).changes reqId = some entry →
        ∃ date campsites, entry = [(date, campsites)] := by
  have h : OneDateEach (Changes w files reqData).changes :=
    OneDateEach.scanLoop w reqData reqData [] files (fun p hp => by cases hp)
  exact ⟨h, fun reqId entry hget => h (reqId, entry) (GoMap.mem_of_get? hget)⟩

end Availability

namespace Availability

/-- C14: the baseline load, the fetch, the decoding and the upload of a request succeed.
Then the iteration stores under the staging key the normalised new snapshot, whatever
the baseline and `changes` are, and so does `Changes` run on the request; on a first
scan (empty baseline) whose new snapshot is 2024-06-01 with `A` available, the change
set is that date with that unit map. -/
theorem scanRequest_stages_new_snapshot (w : World) (changes : ChangeSet) (files : Files)
    (reqId : String) (reqInfo : ActiveRequests) (avlbtyByte : String)
    (oldAvlbty : Snapshot) (resp_body : String) (req_resp : RespCampsiteData)
    (hload : downloadFileIntoMemory w files (baselineFile reqId) = some avlbtyByte)
    (hold : (if avlbtyByte.length > 0 then w.unmarshal avlbtyByte else some [])
      = some oldAvlbty)
    (hfetch : w.makeRequest reqInfo.Url (WEBSITE ++ reqInfo.CampgroundId) = some resp_body)
    (hdecode : w.decode resp_body = some req_resp)
    (hupload : w.uploadFails (tempFile reqId) = false) :
    (scanRequest w changes files reqId reqInfo).files (tempFile reqId)
        = some (w.marshal (normalise [] req_resp.Campsites)) ∧
      (Changes w files [(reqId, reqInfo)]).files (tempFile reqId)
        = some (w.marshal (normalise [] req_resp.Campsites)) ∧
      (avlbtyByte = "" → normalise [] req_resp.Campsites = [("2024-06-01", [("A", true)])] →
        (Changes w files [(reqId, reqInfo)]).changes
          = [(reqId, [("2024-06-01", [("A", true)])])]) := by
  have hrun : ∀ changes, scanRequest w changes files reqId reqInfo
      = ⟨diff changes reqId oldAvlbty (normalise [] req_resp.Campsites),
          fun f => if f = tempFile reqId then some (w.marshal (normalise [] req_resp.Campsites))
            else files f, reqInfo⟩ := by
    intro changes
    rw [scanRequest_eq]
    simp [loadBaseline, fetchAvailability, hload, hold, hfetch, hdecode, uploadFileFromMemory,
      hupload]
  refine ⟨by rw [hrun]; simp, by simp [Changes, scanLoop, hrun], ?_⟩
  intro hempty hnew
  subst hempty
  have hnil : oldAvlbty = [] := by simpa using hold.symm
  subst hnil
  simp only [Changes, scanLoop, hrun, hnew]
  have hfirst : firstChange [] [("2024-06-01", [("A", true)])]
      = some ("2024-06-01", [("A", true)]) := by decide
  rw [diff_eq, hfirst]
  exact @recordChange_of_absent [] reqId rfl _ _

/-- C14 at the input of the spec: first scan of `R1` over an empty bucket, payload with
`A` available on 2024-06-01. -/
theorem scanRequest_stages_new_snapshot_witness :
    (Changes (world [] (some juneFirstPayload)) noFiles [("R1", request "R1")]).files
        (tempFile "R1")
        = some ((world [] (some juneFirstPayload)).marshal
            (normalise [] juneFirstPayload.Campsites)) ∧
      (Changes (world [] (some juneFirstPayload)) noFiles [("R1", request "R1")]).changes
        = [("R1", [("2024-06-01", [("A", true)])])] :=
  have h := scanRequest_stages_new_snapshot (world [] (some juneFirstPayload)) [] noFiles "R1"
    (request "R1") "" [] "body" juneFirstPayload (by decide) (by decide) (by decide)
    (by decide) (by decide)
  ⟨h.2.1, h.2.2 rfl (by decide)⟩

end Availability

/-! ## Requests of one scan do not interfere -/

namespace Availability

/-- Two requests with the same temporary file are the same request. -/
theorem tempFile_injective {id id' : String} (h : tempFile id = tempFile id') : id = id' := by
  unfold tempFile at h
  have hd := congrArg String.data h
  simp only [String.data_append] at hd
  exact String.ext (List.append_cancel_left (List.append_cancel_right hd))

/-- The iteration of a request leaves the entries of the other requests as they are. -/
theorem get?_scanRequest_ne (w : World) (changes : ChangeSet) (files : Files)
    {reqId k : String} (reqInfo : ActiveRequests) (h : k ≠ reqId) :
    GoMap.get? (scanRequest w changes files reqId reqInfo).changes k = GoMap.get? changes k := by
  rcases scanRequest_changes w changes files reqId reqInfo with hc | ⟨o, n, hc⟩
  · rw [hc]
  · rw [hc, get?_diff_ne changes o n h]

/-- The iteration of a request reads the bucket at the baseline file of the request
only, and `changes` at the entry of the request only. -/
theorem scanRequest_congr (w : World) {changes₁ changes₂ : ChangeSet} {files₁ files₂ : Files}
    (reqId : String) (reqInfo : ActiveRequests)
    (h₁ : GoMap.get? changes₁ reqId = none) (h₂ : GoMap.get? changes₂ reqId = none)
    (hbase : files₁ (baselineFile reqId) = files₂ (baselineFile reqId))
    (htemp : files₁ (tempFile reqId) = files₂ (tempFile reqId)) :
    GoMap.get? (scanRequest w changes₁ files₁ reqId reqInfo).changes reqId
        = GoMap.get? (scanRequest w changes₂ files₂ reqId reqInfo).changes reqId ∧
      (scanRequest w changes₁ files₁ reqId reqInfo).files (tempFile reqId)
        = (scanRequest w changes₂ files₂ reqId reqInfo).files (tempFile reqId) := by
  have hload : loadBaseline w files₁ reqId = loadBaseline w files₂ reqId := by
    simp only [loadBaseline, downloadFileIntoMemory, hbase]
  rw [scanRequest_eq, scanRequest_eq, hload]
  cases loadBaseline w files₂ reqId with
  | none => exact ⟨by simp only [h₁, h₂], htemp⟩
  | some oldAvlbty =>
      cases fetchAvailability w reqInfo with
      | none => exact ⟨by simp only [h₁, h₂], htemp⟩
      | some newAvlbty =>
          simp only [uploadFileFromMemory]
          by_cases hup : w.uploadFails (tempFile reqId) = true
          · simp only [hup, if_true]
            exact ⟨get?_diff_self h₁ h₂ oldAvlbty newAvlbty, htemp⟩
          · simp only [hup, Bool.false_eq_true, if_false]
            exact ⟨get?_diff_self h₁ h₂ oldAvlbty newAvlbty, by simp⟩

/-- The loop over requests other than `reqId` leaves the entry of `reqId` and its
temporary file as they are. -/
theorem scanLoop_other (w : World) (reqData : List (String × ActiveRequests))
    (reqId : String) (rest : List (String × ActiveRequests)) (changes : ChangeSet)
    (files : Files) (h : reqId ∉ GoMap.keys rest) :
    GoMap.get? (scanLoop w reqData changes files rest).changes reqId
        = GoMap.get? changes reqId ∧
      (scanLoop w reqData changes files rest).files (tempFile reqId)
        = files (tempFile reqId) := by
  induction rest generalizing changes files with
  | nil => exact ⟨rfl, rfl⟩
  | cons e rest ih =>
      obtain ⟨id, info⟩ := e
      have hne : reqId ≠ id := fun hh => h (by simp [GoMap.keys, hh])
      have hrest : reqId ∉ GoMap.keys rest := fun hh => h (by
        simp only [GoMap.keys, List.map_cons, List.mem_cons] at hh ⊢
        exact Or.inr hh)
      simp only [scanLoop]
      obtain ⟨hc, hf⟩ := ih (scanRequest w changes files id info).changes
        (scanRequest w changes files id info).files hrest
      rw [hc, hf, get?_scanRequest_ne w changes files info hne]
      exact ⟨rfl, scanRequest_files w changes files id info (tempFile reqId)
        (fun hh => hne (tempFile_injective hh))⟩

/-- The loop over a list of distinct requests gives a request of the list the entry and
the temporary file that its iteration alone gives, when no request of the list has the
baseline file of the request as its temporary file. -/
theorem scanLoop_alone (w : World) (reqData : List (String × ActiveRequests))
    (files₀ : Files) (reqId : String) (reqInfo : ActiveRequests)
    (rest : List (String × ActiveRequests)) (changes : ChangeSet) (files : Files)
    (hnodup : (GoMap.keys rest).Nodup) (hmem : (reqId, reqInfo) ∈ rest)
    (hno : ∀ id ∈ GoMap.keys rest, reqId ≠ "temp_" ++ id)
    (hch : GoMap.get? changes reqId = none)
    (hbase : files (baselineFile reqId) = files₀ (baselineFile reqId))
    (htemp : files (tempFile reqId) = files₀ (tempFile reqId)) :
    GoMap.get? (scanLoop w reqData changes files rest).changes reqId
        = GoMap.get? (scanRequest w [] files₀ reqId reqInfo).changes reqId ∧
      (scanLoop w reqData changes files rest).files (tempFile reqId)
        = (scanRequest w [] files₀ reqId reqInfo).files (tempFile reqId) := by
  induction rest generalizing changes files with
  | nil => cases hmem
  | cons e rest ih =>
      obtain ⟨id, info⟩ := e
      have hnd : id ∉ GoMap.keys rest ∧ (GoMap.keys rest).Nodup := by
        simpa [GoMap.keys] using hnodup
      simp only [scanLoop]
      by_cases hid : id = reqId
      · subst hid
        have hinfo : info = reqInfo := by
          rcases List.mem_cons.mp hmem with heq | hrest
          · exact (congrArg Prod.snd heq).symm
          · exact absurd (List.mem_map_of_mem Prod.fst hrest) hnd.1
        subst hinfo
        obtain ⟨hc, hf⟩ := scanLoop_other w reqData id rest
          (scanRequest w changes files id info).changes
          (scanRequest w changes files id info).files hnd.1
        rw [hc, hf]
        exact scanRequest_congr w id info hch rfl hbase htemp
      · have hmem' : (reqId, reqInfo) ∈ rest := by
          rcases List.mem_cons.mp hmem with heq | hrest
          · exact absurd (congrArg Prod.fst heq).symm hid
          · exact hrest
        have hne : reqId ≠ id := fun hh => hid hh.symm
        apply ih _ _ hnd.2 hmem'
          (fun id' hid' => hno id' (by
            simp only [GoMap.keys, List.map_cons, List.mem_cons] at hid' ⊢
            exact Or.inr hid'))
        · rw [get?_scanRequest_ne w changes files info hne, hch]
        · rw [scanRequest_files w changes files id info (baselineFile reqId)
            (fun hh => hno id (by simp [GoMap.keys])
              ((tempFile_eq_baselineFile id reqId).mp hh.symm)), hbase]
        · rw [scanRequest_files w changes files id info (tempFile reqId)
            (fun hh => hne (tempFile_injective hh)), htemp]

/-- With the range orders of one world, that is when the scan and the run on the request
alone visit every map in the same order: for distinct request ids and a request that is
not `temp_` followed by a request id of `reqData`, the change-set entry and the staging
file of the request after `Changes` on `reqData` are those after `Changes` on the
request alone. Two runs of the Go code need not visit the maps in the same order. -/
theorem Changes_request_as_alone (w : World) (files : Files)
    (reqData : List (String × ActiveRequests)) (reqId : String) (reqInfo : ActiveRequests)
    (hnodup : (GoMap.keys reqData).Nodup) (hmem : (reqId, reqInfo) ∈ reqData)
    (hno : ∀ id ∈ GoMap.keys reqData, reqId ≠ "temp_" ++ id) :
    GoMap.get? (Changes w files reqData).changes reqId
        = GoMap.get? (Changes w files [(reqId, reqInfo)]).changes reqId ∧
      (Changes w files reqData).files (tempFile reqId)
        = (Changes w files [(reqId, reqInfo)]).files (tempFile reqId) :=
  scanLoop_alone w reqData files reqId reqInfo reqData [] files hnodup hmem hno rfl rfl rfl

end Availability

/-! ## Normalisation of the payload -/

namespace Availability

/-- The double lookup after `m[date][campsite] = flag` on an existing or nil unit map. -/
theorem unit?_set (m : Snapshot) (date campsite : String) (flag : Bool) (d c : String) :
    unit? (GoMap.set m date (GoMap.set ((GoMap.get? m date).getD []) campsite flag)) d c
      = if d = date ∧ c = campsite then some flag else unit? m d c := by
  unfold unit?
  by_cases hd : d = date
  · subst hd
    rw [GoMap.get?_set_self]
    by_cases hc : c = campsite
    · subst hc
      simp [GoMap.get?_set_self]
    · simp [GoMap.get?_set_ne _ _ hc, hc]
  · rw [GoMap.get?_set_ne _ _ hd]
    simp [hd]

/-- Creating the empty unit map of a date that has none changes no double lookup. -/
theorem unit?_set_nil (m : Snapshot) (date : String) (h : GoMap.get? m date = none)
    (d c : String) : unit? (GoMap.set m date []) d c = unit? m d c := by
  unfold unit?
  by_cases hd : d = date
  · subst hd
    simp [GoMap.get?_set_self, h, GoMap.get?]
  · rw [GoMap.get?_set_ne _ _ hd]

/-- One availability entry sets the flag of its date portion and campsite and leaves
every other flag as it is. -/
theorem unit?_addAvailability (newAvlbty : Snapshot) (campsite key status : String)
    (d c : String) :
    unit? (addAvailability newAvlbty campsite key status) d c
      = if d = campDate key ∧ c = campsite then some (decide (status = "Available"))
        else unit? newAvlbty d c := by
  have hfirst : ∀ d c, unit? (if (GoMap.get? newAvlbty (campDate key)).isSome then newAvlbty
      else GoMap.set newAvlbty (campDate key) []) d c = unit? newAvlbty d c := by
    intro d c
    cases hg : GoMap.get? newAvlbty (campDate key) with
    | some v => simp
    | none => simpa using unit?_set_nil newAvlbty (campDate key) hg d c
  unfold addAvailability
  simp only
  by_cases hs : status = "Available"
  · simp only [hs, if_true, unit?_set, hfirst, decide_True]
    by_cases hdc : d = campDate key ∧ c = campsite
    · simp [hdc]
    · simp [hdc]
  · simp only [hs, if_false, unit?_set, hfirst, decide_False]

/-- The flag of a list of availabilities whose first entry has the date portion. -/
theorem flagIn_cons (key status : String) (rest : List (String × String)) (date : String) :
    flagIn ((key, status) :: rest) date
      = if campDate key = date then some (decide (status = "Available"))
        else flagIn rest date := by
  unfold flagIn
  by_cases h : campDate key = date
  · simp [List.find?_cons, h]
  · simp [List.find?_cons, h]

/-- No flag for a date that is the date portion of no key. -/
theorem flagIn_eq_none {availabilities : List (String × String)} {date : String}
    (h : date ∉ availabilities.map (fun e => campDate e.1)) :
    flagIn availabilities date = none := by
  unfold flagIn
  rw [Option.map_eq_none', List.find?_eq_none]
  intro e he hdate
  exact h (List.mem_map.mpr ⟨e, he, by simpa using hdate⟩)

/-- The availabilities of one campsite, with distinct date portions, set the flags of
that campsite on their dates and leave every other flag as it is. -/
theorem unit?_normaliseCampsite (campsite : String) (availabilities : List (String × String))
    (newAvlbty : Snapshot)
    (hdates : (availabilities.map (fun e => campDate e.1)).Nodup) (d c : String) :
    unit? (normaliseCampsite campsite newAvlbty availabilities) d c
      = if c = campsite then
          match flagIn availabilities d with
          | some flag => some flag
          | none => unit? newAvlbty d c
        else unit? newAvlbty d c := by
  induction availabilities generalizing newAvlbty with
  | nil => simp [normaliseCampsite, flagIn]
  | cons e rest ih =>
      obtain ⟨key, status⟩ := e
      have hnd : campDate key ∉ rest.map (fun e => campDate e.1) ∧
          (rest.map (fun e => campDate e.1)).Nodup := by
        simpa using hdates
      simp only [normaliseCampsite]
      rw [ih _ hnd.2, unit?_addAvailability, flagIn_cons]
      by_cases hc : c = campsite
      · by_cases hd : campDate key = d
        · subst hd
          simp [hc, flagIn_eq_none hnd.1]
        · have hd' : ¬ (d = campDate key) := fun h => hd h.symm
          simp [hc, hd, hd']
      · simp [hc]

/-- The flag that a payload gives, for a payload whose first campsite is another one. -/
theorem expectedFlag_cons_ne {campsite c : String} (campInfo : CampsiteMetadata)
    (rest : List (String × CampsiteMetadata)) (date : String) (h : campsite ≠ c) :
    expectedFlag ((campsite, campInfo) :: rest) date c = expectedFlag rest date c := by
  simp [expectedFlag, GoMap.get?, h]

/-- The payload, with distinct campsites and distinct date portions per campsite, sets
the flags that it gives and leaves every other flag as it is. -/
theorem unit?_normalise (campsites : List (String × CampsiteMetadata)) (newAvlbty : Snapshot)
    (hkeys : (GoMap.keys campsites).Nodup)
    (hdates : ∀ p ∈ campsites, (p.2.Availabilities.map (fun e => campDate e.1)).Nodup)
    (d c : String) :
    unit? (normalise newAvlbty campsites) d c
      = match expectedFlag campsites d c with
        | some flag => some flag
        | none => unit? newAvlbty d c := by
  induction campsites generalizing newAvlbty with
  | nil => simp [normalise, expectedFlag, GoMap.get?]
  | cons e rest ih =>
      obtain ⟨campsite, campInfo⟩ := e
      have hnd : campsite ∉ GoMap.keys rest ∧ (GoMap.keys rest).Nodup := by
        simpa [GoMap.keys] using hkeys
      simp only [normalise]
      rw [ih _ hnd.2 (fun p hp => hdates p (List.mem_cons_of_mem _ hp)),
        unit?_normaliseCampsite campsite campInfo.Availabilities newAvlbty
          (hdates (campsite, campInfo) (List.mem_cons_self _ _))]
      by_cases hc : campsite = c
      · subst hc
        have hrest : expectedFlag rest d campsite = none := by
          simp [expectedFlag, GoMap.get?_of_not_mem_keys hnd.1]
        have hhead : expectedFlag ((campsite, campInfo) :: rest) d campsite
            = flagIn campInfo.Availabilities d := by
          simp [expectedFlag, GoMap.get?]
        rw [hrest, hhead]
        simp
      · have hc' : ¬ (c = campsite) := fun h => hc h.symm
        rw [expectedFlag_cons_ne campInfo rest d hc]
        simp [hc']

end Availability

namespace Availability

/-- The date portion of a key has no `T`; it is the key when the key has no `T`, and
otherwise the key is its date portion, a `T` and the rest. -/
theorem campDate_spec (key : String) :
    'T' ∉ (campDate key).data ∧ ('T' ∉ key.data → campDate key = key) ∧
      ('T' ∈ key.data → ∃ rest : String, key = campDate key ++ "T" ++ rest) := by
  have hdata : (campDate key).data = key.data.takeWhile (fun c => decide (c ≠ 'T')) := rfl
  refine ⟨?_, ?_, ?_⟩
  · rw [hdata]
    intro h
    simpa using List.mem_takeWhile_imp h
  · intro h
    apply String.ext
    rw [hdata, List.takeWhile_eq_self_iff]
    intro x hx
    simp only [ne_eq, decide_not, Bool.not_eq_true', decide_eq_false_iff_not]
    intro hxT
    exact h (hxT ▸ hx)
  · intro h
    have hne : key.data.dropWhile (fun c => decide (c ≠ 'T')) ≠ [] := by
      intro hnil
      have := List.dropWhile_eq_nil_iff.mp hnil 'T' h
      simp at this
    have hhead : (key.data.dropWhile (fun c => decide (c ≠ 'T'))).head hne = 'T' := by
      simpa using List.head_dropWhile_not (fun c => decide (c ≠ 'T')) key.data hne
    refine ⟨String.mk (key.data.dropWhile (fun c => decide (c ≠ 'T'))).tail, ?_⟩
    apply String.ext
    simp only [String.data_append, hdata]
    have hsplit := List.takeWhile_append_dropWhile (fun c => decide (c ≠ 'T')) key.data
    have hcons := List.head_cons_tail _ hne
    rw [hhead] at hcons
    calc key.data
        = key.data.takeWhile (fun c => decide (c ≠ 'T'))
            ++ key.data.dropWhile (fun c => decide (c ≠ 'T')) := hsplit.symm
      _ = key.data.takeWhile (fun c => decide (c ≠ 'T'))
            ++ ('T' :: (key.data.dropWhile (fun c => decide (c ≠ 'T'))).tail) := by rw [hcons]
      _ = _ := by simp

/-- C15: the payload has distinct campsites and no campsite has two availability keys
with the same date portion. Then the new snapshot has the flag `flag` for a date and a
campsite exactly when the payload has an entry of that campsite whose key has that date
as its date portion and whose status compared with the literal `Available` gives `flag`;
the date portion is the text of the key before its first `T`, the whole key when it
has none. -/
theorem normalise_entries (campsites : List (String × CampsiteMetadata))
    (hkeys : (GoMap.keys campsites).Nodup)
    (hdates : ∀ p ∈ campsites, (p.2.Availabilities.map (fun e => campDate e.1)).Nodup)
    (date campsite : String) (flag : Bool) :
    (unit? (normalise [] campsites) date campsite = some flag ↔
        ∃ campInfo key status, (campsite, campInfo) ∈ campsites ∧
          (key, status) ∈ campInfo.Availabilities ∧ campDate key = date ∧
          flag = decide (status = "Available")) ∧
      ∀ key : String, 'T' ∉ (campDate key).data ∧ ('T' ∉ key.data → campDate key = key) ∧
        ('T' ∈ key.data → ∃ rest : String, key = campDate key ++ "T" ++ rest) := by
  refine ⟨?_, campDate_spec⟩
  rw [unit?_normalise campsites [] hkeys hdates]
  have hnil : unit? [] date campsite = none := rfl
  rw [hnil]
  constructor
  · intro h
    cases hexp : expectedFlag campsites date campsite with
    | none => rw [hexp] at h; cases h
    | some b =>
        rw [hexp] at h
        simp only [Option.some.injEq] at h
        subst h
        unfold expectedFlag at hexp
        cases hget : GoMap.get? campsites campsite with
        | none => rw [hget] at hexp; cases hexp
        | some campInfo =>
            rw [hget] at hexp
            simp only [Option.some_bind, flagIn, Option.map_eq_some'] at hexp
            obtain ⟨e, hfind, hflag⟩ := hexp
            refine ⟨campInfo, e.1, e.2, GoMap.mem_of_get? hget,
              List.mem_of_find?_eq_some hfind, ?_, hflag.symm⟩
            simpa using List.find?_some hfind
  · rintro ⟨campInfo, key, status, hmem, hentry, hdate, hflag⟩
    have hget := GoMap.get?_eq_some_of_mem hkeys hmem
    have hfind : campInfo.Availabilities.find? (fun e => decide (campDate e.1 = date))
        = some (key, status) := by
      apply find?_of_unique hentry (by simpa using hdate)
      intro y hy hydate
      have hy' : campDate y.1 = date := by simpa using hydate
      exact List.inj_on_of_nodup_map (hdates _ hmem) hy hentry (by rw [hy', hdate])
    simp [expectedFlag, hget, flagIn, hfind, hflag]

/-- C15 at a concrete input: campsite `A` with the keys of 2024-06-01 and 2024-06-02,
both `Available`. -/
theorem normalise_entries_witness :
    unit? (normalise [] twoDatesPayload.Campsites) "2024-06-01" "A" = some true ↔
      ∃ campInfo key status, ("A", campInfo) ∈ twoDatesPayload.Campsites ∧
        (key, status) ∈ campInfo.Availabilities ∧ campDate key = "2024-06-01" ∧
        true = decide (status = "Available") :=
  (normalise_entries twoDatesPayload.Campsites (by decide) (by decide) "2024-06-01" "A"
    true).1

end Availability

/-! ## The outputs of `addTripProcedures` -/

namespace Trip

variable {σ : Type}

/-- The loop over the dates returns the `changedReqs` it started with. -/
theorem subscriptionLoop_changedReqs (st : RecordStore σ) (trip : TripInfo)
    (dates : List (String × DateInfo)) (p : Progress σ) :
    match subscriptionLoop st trip p dates with
    | .next p' => p'.changedReqs = p.changedReqs
    | .ret o => o.changedReqs = p.changedReqs := by
  induction dates generalizing p with
  | nil => simp [subscriptionLoop]
  | cons d dates ih =>
      obtain ⟨date, dateInfo⟩ := d
      simp only [subscriptionLoop]
      rcases hw : st.AddSubscriptionMtd trip.TripId date trip.Location p.store with ⟨e, s₁⟩
      cases e with
      | some e => simp [Progress.ret, Progress.completed, Progress.called]
      | none =>
          simp only
          exact ih _

/-- The loop over the requests returns the `changedReqs` it started with. -/
theorem activeReqsLoop_changedReqs (st : RecordStore σ) (trip : TripInfo)
    (reqs : List (String × String)) (p : Progress σ) :
    match activeReqsLoop st trip p reqs with
    | .next p' => p'.changedReqs = p.changedReqs
    | .ret o => o.changedReqs = p.changedReqs := by
  induction reqs generalizing p with
  | nil => simp [activeReqsLoop]
  | cons r reqs ih =>
      obtain ⟨reqId, v⟩ := r
      simp only [activeReqsLoop]
      by_cases h1 : st.GetActiveReq reqId p.store = some .ErrNoDoc
      · simp only [h1, if_true]
        rcases hw : st.AddActiveReq reqId trip.Dates
            (p.called (.GetActiveReq reqId) p.store).store with ⟨e, s₁⟩
        cases e <;> simp [Progress.ret, Progress.completed, Progress.called]
      · by_cases h2 : st.GetActiveReq reqId p.store = none
        · simp only [h1, h2, if_false, ne_eq, not_true_eq_false]
          exact ih _
        · simp [h1, h2, Progress.ret, Progress.called]

/-- The loop over the procedures returns the `changedReqs` it started with. -/
theorem procedureLoop_changedReqs (st : RecordStore σ) (trip : TripInfo)
    (procedures : List String) (p : Progress σ) :
    (procedureLoop st trip p procedures).changedReqs = p.changedReqs := by
  induction procedures generalizing p with
  | nil => rfl
  | cons procedure rest ih =>
      simp only [procedureLoop]
      split
      · rcases hw : st.AddTripMtd trip p.store with ⟨e, s₁⟩
        cases e with
        | some e => rfl
        | none => simp only; rw [ih]; rfl
      · split
        · rcases hw : st.AddTripSubscriberMtd trip.SubscriberId trip.TripId p.store with ⟨e, s₁⟩
          cases e with
          | some e => rfl
          | none => simp only; rw [ih]; rfl
        · split
          · have h := subscriptionLoop_changedReqs st trip trip.Dates p
            cases hl : subscriptionLoop st trip p trip.Dates with
            | ret o => rw [hl] at h; exact h
            | next p' => rw [hl] at h; simp only; rw [ih]; exact h
          · split
            · have h := activeReqsLoop_changedReqs st trip trip.Requests p
              cases hl : activeReqsLoop st trip p trip.Requests with
              | ret o => rw [hl] at h; exact h
              | next p' => rw [hl] at h; simp only; rw [ih]; exact h
            · exact ih p

/-- C20: for every record store, state, procedure list and trip, the changed-request
map that `addTripProcedures` returns is empty; no statement of the function writes to
`changedReqs`, also not after `AddActiveReq` has created a record. -/
theorem addTripProcedures_changedReqs_empty (st : RecordStore σ) (procedures : List String)
    (trip : TripInfo) (s : σ) :
    (addTripProcedures st procedures trip s).changedReqs = [] :=
  procedureLoop_changedReqs st trip procedures ⟨[], [], [], s, []⟩

end Trip

namespace GoMap

variable {V : Type}

/-- The assignment of a key that the map does not have appends the entry. -/
theorem set_of_not_mem {m : List (String × V)} {k : String} (h : k ∉ keys m) (v : V) :
    set m k v = m ++ [(k, v)] := by
  induction m with
  | nil => rfl
  | cons e rest ih =>
      obtain ⟨k', v'⟩ := e
      have hk : ¬ (k' = k) := fun hh => h (by simp [keys, hh])
      have hrest : k ∉ keys rest := fun hh => h (by
        simp only [keys, List.map_cons, List.mem_cons] at hh ⊢
        exact Or.inr hh)
      simp [set, hk, ih hrest]

/-- Assigning the entries of a list with distinct keys, none of them a key of the map,
one after the other appends the list. -/
theorem foldl_set_eq_append (l m : List (String × V)) (h : (keys (m ++ l)).Nodup) :
    l.foldl (fun acc d => set acc d.1 d.2) m = m ++ l := by
  induction l generalizing m with
  | nil => simp
  | cons e rest ih =>
      obtain ⟨k, v⟩ := e
      have hk : k ∉ keys m := by
        simp only [keys, List.map_append, List.map_cons] at h
        have := (List.nodup_append.mp h).2.2
        intro hmem
        exact this hmem (List.mem_cons_self _ _)
      simp only [List.foldl_cons]
      rw [set_of_not_mem hk, ih]
      · simp
      · simpa using h

end GoMap

namespace Trip

variable {σ : Type}

/-- The loop over dates whose subscription writes all succeed: every date is entered
into `changedDates`. -/
theorem subscriptionLoop_success (st : RecordStore σ) (trip : TripInfo)
    (dates : List (String × DateInfo)) (p : Progress σ) (s' : σ)
    (h : performAll st (dates.map (fun d => subscriptionWrite trip d.1)) p.store = some s') :
    subscriptionLoop st trip p dates
      = .next { p with
          changedDates := dates.foldl (fun acc d => GoMap.set acc d.1 d.2) p.changedDates
          store := s'
          calls := p.calls ++ dates.map (fun d => subscriptionWrite trip d.1) } := by
  induction dates generalizing p with
  | nil =>
      have hs : p.store = s' := by simpa [performAll] using h
      simp [subscriptionLoop, ← hs]
  | cons d dates ih =>
      obtain ⟨date, dateInfo⟩ := d
      simp only [List.map_cons, performAll, perform, subscriptionWrite] at h
      rcases hw : st.AddSubscriptionMtd trip.TripId date trip.Location p.store with ⟨e, s₁⟩
      rw [hw] at h
      cases e with
      | some e => simp at h
      | none =>
          simp only at h
          simp only [subscriptionLoop, hw]
          rw [ih _ (by simpa [Progress.called, subscriptionWrite] using h)]
          simp [Progress.called, subscriptionWrite]

/-- The loop over dates in which the write of one date fails after the writes of the
dates before it succeeded: the function returns with the dates before it entered. -/
theorem subscriptionLoop_failure (st : RecordStore σ) (trip : TripInfo)
    (done later : List (String × DateInfo)) (date : String) (dateInfo : DateInfo)
    (p : Progress σ) (sₖ s' : σ) (e : StoreError)
    (h : performAll st (done.map (fun d => subscriptionWrite trip d.1)) p.store = some sₖ)
    (hfail : st.AddSubscriptionMtd trip.TripId date trip.Location sₖ = (some e, s')) :
    subscriptionLoop st trip p (done ++ (date, dateInfo) :: later)
      = .ret ⟨p.proceduresCompleted ++ ["subscriptionMtd"],
          done.foldl (fun acc d => GoMap.set acc d.1 d.2) p.changedDates, p.changedReqs,
          some e, s',
          p.calls ++ done.map (fun d => subscriptionWrite trip d.1)
            ++ [subscriptionWrite trip date]⟩ := by
  induction done generalizing p with
  | nil =>
      have hs : p.store = sₖ := by simpa [performAll] using h
      rw [← hs] at hfail
      simp [subscriptionLoop, hfail, Progress.ret, Progress.completed, Progress.called,
        subscriptionWrite]
  | cons d done ih =>
      obtain ⟨date₁, dateInfo₁⟩ := d
      simp only [List.map_cons, performAll, perform, subscriptionWrite] at h
      rcases hw : st.AddSubscriptionMtd trip.TripId date₁ trip.Location p.store with ⟨e₁, s₁⟩
      rw [hw] at h
      cases e₁ with
      | some e₁ => simp at h
      | none =>
          simp only at h
          simp only [List.cons_append, subscriptionLoop, hw]
          refine (ih _ (by simpa [Progress.called, subscriptionWrite] using h)).trans ?_
          simp [Progress.called, subscriptionWrite]

/-- The `tripMtd` and `subscriberMtd` procedures of a prefix whose writes all succeed
are completed without a change of `changedDates`, and the loop goes on with the rest. -/
theorem procedureLoop_of_writes (st : RecordStore σ) (trip : TripInfo)
    (pre rest : List String) (p : Progress σ) (s' : σ)
    (hpre : ∀ x ∈ pre, x = "tripMtd" ∨ x = "subscriberMtd")
    (h : performAll st (pre.flatMap (writesOf trip)) p.store = some s') :
    procedureLoop st trip p (pre ++ rest)
      = procedureLoop st trip
          { p with
            proceduresCompleted := p.proceduresCompleted ++ pre
            store := s'
            calls := p.calls ++ pre.flatMap (writesOf trip) } rest := by
  induction pre generalizing p with
  | nil =>
      have hs : p.store = s' := by simpa [performAll] using h
      simp [← hs]
  | cons x pre ih =>
      have hx := hpre x (List.mem_cons_self _ _)
      have hpre' : ∀ y ∈ pre, y = "tripMtd" ∨ y = "subscriberMtd" :=
        fun y hy => hpre y (List.mem_cons_of_mem _ hy)
      rw [List.flatMap_cons, performAll_append] at h
      rcases hx with hx | hx
      · subst hx
        simp only [writesOf, if_true, performAll, perform] at h
        rcases hw : st.AddTripMtd trip p.store with ⟨e, s₁⟩
        rw [hw] at h
        cases e with
        | some e => simp at h
        | none =>
            simp only [Option.bind] at h
            simp only [List.cons_append, procedureLoop, if_true, hw]
            refine (ih _ hpre' (by simpa [Progress.called, Progress.completed] using h)).trans ?_
            simp [Progress.called, Progress.completed, writesOf]
      · subst hx
        simp only [writesOf, performAll, perform] at h
        rcases hw : st.AddTripSubscriberMtd trip.SubscriberId trip.TripId p.store with ⟨e, s₁⟩
        simp only [show ¬ ("subscriberMtd" = "tripMtd") by decide, if_false, if_true,
          performAll, perform, hw] at h
        cases e with
        | some e => simp at h
        | none =>
            simp only [Option.bind] at h
            simp only [List.cons_append, procedureLoop,
              show ¬ ("subscriberMtd" = "tripMtd") by decide, if_false, if_true, hw]
            refine (ih _ hpre' (by simpa [Progress.called, Progress.completed] using h)).trans ?_
            simp [Progress.called, Progress.completed, writesOf]

end Trip

namespace Trip

variable {σ : Type}

/-- C12: the trip's dates are distinct, and the `subscriptionMtd` procedure is reached
after `tripMtd` and `subscriberMtd` steps whose writes succeed. If the subscription
write of a date fails after the writes of the `k` dates before it, in the order of the
range, succeeded, then `addTripProcedures` returns that error and the changed-dates
output is exactly those `k` dates with their `DateInfo`, without the failing date and
the dates after it. If no subscription write fails, the changed-dates output of the
procedure is `trip.Dates`. -/
theorem addTripProcedures_changedDates (st : RecordStore σ) (trip : TripInfo)
    (pre post : List String) (s s₀ : σ)
    (hpre : ∀ x ∈ pre, x = "tripMtd" ∨ x = "subscriberMtd")
    (hkeys : (GoMap.keys trip.Dates).Nodup)
    (hbefore : performAll st (pre.flatMap (writesOf trip)) s = some s₀) :
    (∀ (done later : List (String × DateInfo)) (date : String) (dateInfo : DateInfo)
        (sₖ s' : σ) (e : StoreError),
        trip.Dates = done ++ (date, dateInfo) :: later →
        performAll st (done.map (fun d => subscriptionWrite trip d.1)) s₀ = some sₖ →
        st.AddSubscriptionMtd trip.TripId date trip.Location sₖ = (some e, s') →
        (addTripProcedures st (pre ++ "subscriptionMtd" :: post) trip s).err = some e ∧
          (addTripProcedures st (pre ++ "subscriptionMtd" :: post) trip s).changedDates = done ∧
          ∀ d ∈ GoMap.keys ((date, dateInfo) :: later),
            GoMap.get? (addTripProcedures st (pre ++ "subscriptionMtd" :: post) trip
              s).changedDates d = none) ∧
      (∀ s' : σ,
        performAll st (trip.Dates.map (fun d => subscriptionWrite trip d.1)) s₀ = some s' →
        (addTripProcedures st (pre ++ ["subscriptionMtd"]) trip s).err = none ∧
          (addTripProcedures st (pre ++ ["subscriptionMtd"]) trip s).changedDates
            = trip.Dates) := by
  have hsub : ¬ ("subscriptionMtd" = "tripMtd") ∧ ¬ ("subscriptionMtd" = "subscriberMtd") :=
    ⟨by decide, by decide⟩
  constructor
  · intro done later date dateInfo sₖ s' e hdates hdone hfail
    have hrun : addTripProcedures st (pre ++ "subscriptionMtd" :: post) trip s
        = ⟨pre ++ ["subscriptionMtd"], done, [], some e, s',
            pre.flatMap (writesOf trip) ++ done.map (fun d => subscriptionWrite trip d.1)
              ++ [subscriptionWrite trip date]⟩ := by
      unfold addTripProcedures
      rw [procedureLoop_of_writes st trip pre _ _ s₀ hpre hbefore]
      simp only [procedureLoop, hsub.1, hsub.2, if_false, if_true, hdates]
      rw [subscriptionLoop_failure st trip done later date dateInfo _ sₖ s' e hdone hfail]
      have hnd : (GoMap.keys ([] ++ done)).Nodup := by
        rw [hdates] at hkeys
        simp only [GoMap.keys, List.map_append, List.nil_append] at hkeys ⊢
        exact (List.nodup_append.mp hkeys).1
      simp only [GoMap.foldl_set_eq_append done [] hnd]
      simp
    rw [hrun]
    refine ⟨rfl, rfl, ?_⟩
    intro d hd
    apply GoMap.get?_of_not_mem_keys
    intro hmem
    rw [hdates] at hkeys
    simp only [GoMap.keys, List.map_append] at hkeys hd hmem
    exact (List.nodup_append.mp hkeys).2.2 hmem hd
  · intro s' hall
    unfold addTripProcedures
    rw [procedureLoop_of_writes st trip pre _ _ s₀ hpre hbefore]
    simp only [procedureLoop, hsub.1, hsub.2, if_false, if_true]
    rw [subscriptionLoop_success st trip trip.Dates _ s' hall]
    have hnd : (GoMap.keys ([] ++ trip.Dates)).Nodup := by simpa using hkeys
    simp only [GoMap.foldl_set_eq_append trip.Dates [] hnd]
    simp [procedureLoop, Progress.ret, Progress.completed]

/-- C12 at a concrete input: the trip has the dates 2024-06-01 and 2024-06-02. When the
write of 2024-06-02 fails, the error is returned and the changed dates are 2024-06-01
alone; when no write fails, the changed dates are the two dates of the trip. -/
theorem addTripProcedures_changedDates_witness :
    ((addTripProcedures (memStore secondDateFails) (["tripMtd"] ++ "subscriptionMtd" :: [])
        twoDateTrip emptyMem).err = some (.failure "subscriptions: unavailable") ∧
      (addTripProcedures (memStore secondDateFails) (["tripMtd"] ++ "subscriptionMtd" :: [])
        twoDateTrip emptyMem).changedDates = [("2024-06-01", ⟨true, "av1", []⟩)] ∧
      ∀ d ∈ GoMap.keys [("2024-06-02", (⟨false, "av2", []⟩ : DateInfo))],
        GoMap.get? (addTripProcedures (memStore secondDateFails)
          (["tripMtd"] ++ "subscriptionMtd" :: []) twoDateTrip emptyMem).changedDates d
          = none) ∧
      ((addTripProcedures (memStore noFailure) (["tripMtd"] ++ ["subscriptionMtd"]) twoDateTrip
          emptyMem).err = none ∧
        (addTripProcedures (memStore noFailure) (["tripMtd"] ++ ["subscriptionMtd"]) twoDateTrip
          emptyMem).changedDates = twoDateTrip.Dates) :=
  ⟨(addTripProcedures_changedDates (memStore secondDateFails) twoDateTrip ["tripMtd"] []
      emptyMem ⟨[twoDateTrip], [], [], []⟩ (by decide) (by decide) (by decide)).1
      [("2024-06-01", ⟨true, "av1", []⟩)] [] "2024-06-02" ⟨false, "av2", []⟩
      ⟨[twoDateTrip], [], [("t", "2024-06-01", "Upper Pines")], []⟩
      ⟨[twoDateTrip], [], [("t", "2024-06-01", "Upper Pines")], []⟩
      (.failure "subscriptions: unavailable") (by decide) (by decide) (by decide),
    (addTripProcedures_changedDates (memStore noFailure) twoDateTrip ["tripMtd"] []
      emptyMem ⟨[twoDateTrip], [], [], []⟩ (by decide) (by decide) (by decide)).2
      ⟨[twoDateTrip], [],
        [("t", "2024-06-01", "Upper Pines"), ("t", "2024-06-02", "Upper Pines")], []⟩
      (by decide)⟩

/-- The loop over the requests skips the requests that have a record. -/
theorem activeReqsLoop_skip (st : RecordStore σ) (trip : TripInfo)
    (done rest : List (String × String)) (p : Progress σ)
    (h : ∀ reqId ∈ GoMap.keys done, st.GetActiveReq reqId p.store = none) :
    activeReqsLoop st trip p (done ++ rest)
      = activeReqsLoop st trip
          { p with calls := p.calls ++ (GoMap.keys done).map Call.GetActiveReq } rest := by
  induction done generalizing p with
  | nil => simp [GoMap.keys]
  | cons r done ih =>
      obtain ⟨reqId, v⟩ := r
      have hr := h reqId (by simp [GoMap.keys])
      simp only [List.cons_append, activeReqsLoop, hr]
      simp only [reduceCtorEq, if_false, ne_eq, not_true_eq_false]
      refine (ih (p.called (.GetActiveReq reqId) p.store)
        (fun id hid => h id (by simp [GoMap.keys] at hid ⊢; exact Or.inr hid))).trans ?_
      simp [Progress.called, GoMap.keys]

/-- C16: the `activeReqs` procedure is reached after steps whose writes succeed, and
`reqId` is the first request id of the trip for which `GetActiveReq` gives an error.
When that error is `ErrNoDoc`, `AddActiveReq` is called for `reqId` with the trip's
dates and the error that `addTripProcedures` returns is the one of that call (nil when
the record is created), not the `ErrNoDoc` of the lookup. When it is any other error,
`addTripProcedures` returns that error, makes no `AddActiveReq` call for `reqId`, does
not add `activeReqs` to the completed list and leaves the store as it is. -/
theorem addTripProcedures_activeReqs_lookup (st : RecordStore σ) (trip : TripInfo)
    (pre post : List String) (s sᵢ : σ) (done later : List (String × String))
    (reqId v : String)
    (hpre : ∀ x ∈ pre, x = "tripMtd" ∨ x = "subscriberMtd" ∨ x = "subscriptionMtd")
    (hbefore : performAll st (pre.flatMap (writesOf trip)) s = some sᵢ)
    (hreqs : trip.Requests = done ++ (reqId, v) :: later)
    (hdone : ∀ id ∈ GoMap.keys done, st.GetActiveReq id sᵢ = none) :
    (st.GetActiveReq reqId sᵢ = some .ErrNoDoc →
        (addTripProcedures st (pre ++ "activeReqs" :: post) trip s).err
            = (st.AddActiveReq reqId trip.Dates sᵢ).1 ∧
          Call.AddActiveReq reqId trip.Dates
            ∈ (addTripProcedures st (pre ++ "activeReqs" :: post) trip s).calls ∧
          (addTripProcedures st (pre ++ "activeReqs" :: post) trip s).store
            = (st.AddActiveReq reqId trip.Dates sᵢ).2) ∧
      (∀ e : StoreError, st.GetActiveReq reqId sᵢ = some e → e ≠ .ErrNoDoc →
        (addTripProcedures st (pre ++ "activeReqs" :: post) trip s).err = some e ∧
          (∀ dates, Call.AddActiveReq reqId dates
            ∉ (addTripProcedures st (pre ++ "activeReqs" :: post) trip s).calls) ∧
          "activeReqs"
            ∉ (addTripProcedures st (pre ++ "activeReqs" :: post) trip s).proceduresCompleted ∧
          (addTripProcedures st (pre ++ "activeReqs" :: post) trip s).store = sᵢ) := by
  obtain ⟨p, hp, hc, hs, hcalls⟩ :=
    procedureLoop_of_performAll st trip pre ("activeReqs" :: post) ⟨[], [], [], s, []⟩ sᵢ
      hpre hbefore
  simp only [List.nil_append] at hc hcalls
  have hloop : procedureLoop st trip p ("activeReqs" :: post)
      = match activeReqsLoop st trip
            { p with calls := p.calls ++ (GoMap.keys done).map Call.GetActiveReq }
            ((reqId, v) :: later) with
        | .ret o => o
        | .next p' => procedureLoop st trip (p'.completed "activeReqs") post := by
    simp only [procedureLoop, show ¬ ("activeReqs" = "tripMtd") by decide,
      show ¬ ("activeReqs" = "subscriberMtd") by decide,
      show ¬ ("activeReqs" = "subscriptionMtd") by decide, if_false, if_true, hreqs]
    rw [activeReqsLoop_skip st trip done _ p (by rw [hs]; exact hdone)]
  have hwrites : ∀ dates, Call.AddActiveReq reqId dates ∉ pre.flatMap (writesOf trip) := by
    intro dates hmem
    obtain ⟨x, hx, hcall⟩ := List.mem_flatMap.mp hmem
    rcases hpre x hx with h | h | h <;> subst h <;> simp [writesOf] at hcall
  have hnames : "activeReqs" ∉ pre := by
    intro hmem
    rcases hpre _ hmem with h | h | h <;> revert h <;> decide
  unfold addTripProcedures
  rw [hp, hloop]
  constructor
  · intro hget
    rw [← hs] at hget ⊢
    rcases hw : st.AddActiveReq reqId trip.Dates p.store with ⟨e, s₁⟩
    cases e <;>
      simp [activeReqsLoop, hget, hw, Progress.ret, Progress.called, Progress.completed]
  · intro e hget hne
    rw [← hs] at hget ⊢
    have hne' : ¬ (some e = some StoreError.ErrNoDoc) := fun h => hne (Option.some.inj h)
    simp only [activeReqsLoop, hget, hne', if_false, ne_eq, reduceCtorEq, not_false_eq_true,
      if_true, Progress.ret, Progress.called, hc, hcalls]
    refine ⟨trivial, ?_, hnames, trivial⟩
    intro dates hmem
    simp only [List.mem_append, List.mem_map, List.mem_singleton, reduceCtorEq, and_false,
      exists_false, or_false] at hmem
    exact hwrites dates hmem

/-- C16 at a concrete input. The lookup of `r1` fails with an error other than
`ErrNoDoc`: that error is returned, no record is created for `r1`, `activeReqs` is not
completed and the store is as it was. The lookup of `r1` gives `ErrNoDoc`: the record of
`r1` is created and the returned error is the nil error of that creation. -/
theorem addTripProcedures_activeReqs_lookup_witness :
    ((addTripProcedures (memStore lookupFails) ([] ++ "activeReqs" :: []) sampleTrip
        emptyMem).err = some (.failure "activeReqs: deadline exceeded") ∧
      (∀ dates, Call.AddActiveReq "r1" dates
        ∉ (addTripProcedures (memStore lookupFails) ([] ++ "activeReqs" :: []) sampleTrip
            emptyMem).calls) ∧
      "activeReqs" ∉ (addTripProcedures (memStore lookupFails) ([] ++ "activeReqs" :: [])
        sampleTrip emptyMem).proceduresCompleted ∧
      (addTripProcedures (memStore lookupFails) ([] ++ "activeReqs" :: []) sampleTrip
        emptyMem).store = emptyMem) ∧
      ((addTripProcedures (memStore noFailure) ([] ++ "activeReqs" :: []) sampleTrip
          emptyMem).err = ((memStore noFailure).AddActiveReq "r1" sampleTrip.Dates emptyMem).1 ∧
        Call.AddActiveReq "r1" sampleTrip.Dates
          ∈ (addTripProcedures (memStore noFailure) ([] ++ "activeReqs" :: []) sampleTrip
              emptyMem).calls ∧
        (addTripProcedures (memStore noFailure) ([] ++ "activeReqs" :: []) sampleTrip
          emptyMem).store = ((memStore noFailure).AddActiveReq "r1" sampleTrip.Dates emptyMem).2) :=
  ⟨(addTripProcedures_activeReqs_lookup (memStore lookupFails) sampleTrip [] [] emptyMem
      emptyMem [] [("r2", "r2")] "r1" "r1" (by decide) (by decide) (by decide)
      (by decide)).2 (.failure "activeReqs: deadline exceeded") (by decide) (by decide),
    (addTripProcedures_activeReqs_lookup (memStore noFailure) sampleTrip [] [] emptyMem
      emptyMem [] [("r2", "r2")] "r1" "r1" (by decide) (by decide) (by decide)
      (by decide)).1 (by decide)⟩

end Trip
